import Mathlib

/-!
# go-contacts: a verification development

A shallow embedding of the address-book service (`services/services.go`,
`services/mongo.go`) and of its HTTP handlers (`handler/handler.go`,
`handler/errors.go`), followed by theorems about them.

Conventions of the embedding

* A Go `error` is a value of `GoError`; the `nil` error is `none : Option GoError`.
  The package-level error variables are the constructors of `GoError`, compared by
  identity exactly as the Go `switch err` statements do.
* A `*Entry` is an `Entry` value; where a method writes through the pointer
  (`entry.Email = strings.ToLower(entry.Email)`) the method also returns the entry as
  it stands after the call.
* The mgo collection behind a `MongoService` is the list of its documents in
  insertion order together with the seed of the ids the server generates.
* `strings.ToLower` maps every character through `unicode.ToLower`; that mapping is the
  parameter `Unicode.ToLower`.  Only the closed examples fix it (`exUnicode`).
* A handler is a function on a `World`: the response writer, the state behind
  `h.Service`, the service calls made so far and the lines the logger printed.  The
  body of a response is kept as the sequence of values handed to the JSON encoder.
-/

namespace Contacts

/-! ## Errors -/

/-- Go error values used by the program.  `ErrNotFound` is `mgo.ErrNotFound`; `other`
stands for every error value that the program never compares against. -/
inductive GoError where
  | ErrInvalidName
  | ErrInvalidEmail
  | ErrInvalidPhone
  | ErrInvalidID
  | ErrEmailExists
  | ErrNotFound
  | ErrNoIDParam
  | ErrNoID
  | ErrInvalidFileType
  | other (msg : String)
deriving DecidableEq, Repr

/-- The text of `err.Error()`, from the `errors.New` calls of the source. -/
def GoError.Error : GoError → String
  | .ErrInvalidName => "Name field cannot be empty or null"
  | .ErrInvalidEmail => "Email field cannot be empty or null"
  | .ErrInvalidPhone => "Phone field cannot be empty or null"
  | .ErrInvalidID => "ID value is invalid"
  | .ErrEmailExists => "Email already exists"
  | .ErrNotFound => "not found"
  | .ErrNoIDParam => "Invalid ID parameter"
  | .ErrNoID => "Missing field: _id"
  | .ErrInvalidFileType => "Invalid file type"
  | .other msg => msg

/-! ## The entry and its validation (`services/services.go`) -/

/-- A `bson.ObjectId` is a Go string holding the raw bytes of the id. -/
abbrev ObjectId := String

/-- The `Entry` struct. -/
structure Entry where
  ID : ObjectId
  FirstName : String
  LastName : String
  Email : String
  Phone : String
deriving DecidableEq, Repr

/-- The method `func (e Entry) Validate() error`. -/
def Entry.Validate (e : Entry) : Option GoError :=
  if e.FirstName = "" then some .ErrInvalidName
  else if e.LastName = "" then some .ErrInvalidName
  else if e.Email = "" then some .ErrInvalidEmail
  else if e.Phone = "" then some .ErrInvalidPhone
  else none

/-! ## Library functions used by the service -/

/-- The rune mapping `unicode.ToLower` of the Go standard library.  Its case tables are
not part of this repository, so the mapping is a parameter of the development: every
definition that lower-cases and every theorem about one holds for whatever mapping the
tables give. -/
class Unicode where
  /-- The function `unicode.ToLower`, from rune to rune. -/
  ToLower : Char → Char

section Parametric

variable [Unicode]

/-- The function `strings.ToLower`, which is `strings.Map(unicode.ToLower, s)`: every
character of the string is replaced by its image under `unicode.ToLower`. -/
def ToLower (s : String) : String := ⟨s.data.map Unicode.ToLower⟩

/-- Value of a hexadecimal digit, as `encoding/hex` reads it (both letter cases). -/
def hexVal (c : Char) : Option Nat :=
  if '0' ≤ c ∧ c ≤ '9' then some (c.toNat - '0'.toNat)
  else if 'a' ≤ c ∧ c ≤ 'f' then some (c.toNat - 'a'.toNat + 10)
  else if 'A' ≤ c ∧ c ≤ 'F' then some (c.toNat - 'A'.toNat + 10)
  else none

/-- The function `hex.DecodeString` on the characters of its argument: pairs of hexadecimal
digits become one byte each; an odd length or a non-digit is an error (`none`). -/
def hexDecode : List Char → Option (List Char)
  | [] => some []
  | [_] => none
  | hi :: lo :: rest =>
    match hexVal hi, hexVal lo, hexDecode rest with
    | some h, some l, some bs => some (Char.ofNat (16 * h + l) :: bs)
    | _, _, _ => none

/-- The function `bson.IsObjectIdHex`: `len(s) == 24` and `hex.DecodeString(s)` succeeds. -/
def IsObjectIdHex (s : String) : Bool :=
  s.utf8ByteSize == 24 && (hexDecode s.data).isSome

/-- The function `bson.ObjectIdHex`, called by the source only after `IsObjectIdHex`. -/
def ObjectIdHex (s : String) : ObjectId :=
  match hexDecode s.data with
  | some bs => ⟨bs⟩
  | none => ""

/-! ## The collection (`gopkg.in/mgo.v2`)

The collection is library code; it is modelled after the documentation of mgo.  The
session returned by `mgo.Dial` is in safe mode (`&Safe{}`), in which every write reports
its error and `Update` and `Remove` return `mgo.ErrNotFound` when the selector matches no
document. -/

/-- State of the collection `s.Session.DB(s.DBName).C(s.Collection)` behind a
`MongoService`: the documents in insertion order and the seed of generated ids. -/
structure MongoService where
  docs : List Entry
  idSeed : Nat
deriving DecidableEq, Repr

/-- The twelve-byte id generated from a seed, most significant byte first. -/
def NewObjectId (n : Nat) : ObjectId :=
  ⟨(List.range 12).map fun i => Char.ofNat (n / 256 ^ (11 - i) % 256)⟩

/-- Marshalling an `ObjectId` fails unless it is exactly twelve bytes long. -/
def bsonIdError (id : ObjectId) : Option GoError :=
  if id.length = 12 then none
  else some (.other ("ObjectIDs must be exactly 12 bytes long (got " ++ toString id.length ++ ")"))

/-- The query `Find(selector).One(&result)`: the first document the selector matches, or
`mgo.ErrNotFound`. -/
def FindOne (s : MongoService) (selector : Entry → Bool) : Except GoError Entry :=
  match s.docs.find? selector with
  | some d => .ok d
  | none => .error .ErrNotFound

/-- The write `Insert(entry)`.  The `_id` field is `omitempty`: a document without one gets a
generated id; an id already in the collection is a duplicate-key error. -/
def Insert (s : MongoService) (entry : Entry) : Option GoError × MongoService :=
  if entry.ID = "" then
    let doc := { entry with ID := NewObjectId s.idSeed }
    if s.docs.any (fun d => d.ID == doc.ID) then
      (some (.other "E11000 duplicate key error"), { s with idSeed := s.idSeed + 1 })
    else (none, { docs := s.docs ++ [doc], idSeed := s.idSeed + 1 })
  else
    match bsonIdError entry.ID with
    | some err => (some err, s)
    | none =>
      if s.docs.any (fun d => d.ID == entry.ID) then
        (some (.other "E11000 duplicate key error"), s)
      else (none, { s with docs := s.docs ++ [entry] })

/-- Replace the first document whose `_id` is `id` by `doc`. -/
def replaceFirst (id : ObjectId) (doc : Entry) : List Entry → List Entry
  | [] => []
  | d :: ds => if d.ID = id then doc :: ds else d :: replaceFirst id doc ds

/-- The write `Update(bson.M{"_id": id}, entry)`: a full replacement of the first document
with that `_id`, which keeps its `_id`; `mgo.ErrNotFound` when there is none. -/
def Update (s : MongoService) (id : ObjectId) (entry : Entry) : Option GoError × MongoService :=
  match bsonIdError id with
  | some err => (some err, s)
  | none =>
    if entry.ID ≠ "" ∧ entry.ID ≠ id then
      (some (.other "the (immutable) field _id was found to have been altered"), s)
    else if s.docs.any (fun d => d.ID == id) then
      (none, { s with docs := replaceFirst id { entry with ID := id } s.docs })
    else (some .ErrNotFound, s)

/-- Remove the first document whose `_id` is `id`. -/
def removeFirst (id : ObjectId) : List Entry → List Entry
  | [] => []
  | d :: ds => if d.ID = id then ds else d :: removeFirst id ds

/-- The write `Remove(bson.M{"_id": id})`: removes the first document with that `_id`;
`mgo.ErrNotFound` when there is none. -/
def Remove (s : MongoService) (id : ObjectId) : Option GoError × MongoService :=
  match bsonIdError id with
  | some err => (some err, s)
  | none =>
    if s.docs.any (fun d => d.ID == id) then
      (none, { s with docs := removeFirst id s.docs })
    else (some .ErrNotFound, s)

/-! ## The service (`services/mongo.go`) -/

/-- The method `AllEntries`: `Find(bson.M{}).All(&entries)`. -/
def AllEntries (s : MongoService) : List Entry × Option GoError :=
  (s.docs, none)

/-- The zero value `&Entry{}`. -/
def Entry.zero : Entry :=
  { ID := "", FirstName := "", LastName := "", Email := "", Phone := "" }

/-- The method `EntryByID`.  The returned pointer is `nil` (`none`) only on the
`ErrInvalidID` path; otherwise it is the entry that `One` filled, the zero entry on error. -/
def EntryByID (s : MongoService) (id : String) : Option Entry × Option GoError :=
  let valid := IsObjectIdHex id
  if !valid then (none, some .ErrInvalidID)
  else
    match FindOne s (fun d => d.ID == ObjectIdHex id) with
    | .ok entry => (some entry, none)
    | .error err => (some Entry.zero, some err)

/-- The method `checkIfEmailExists`. -/
def checkIfEmailExists (s : MongoService) (entry : Entry) : Option GoError :=
  match FindOne s (fun d => d.Email == entry.Email) with
  | .error err =>
    match err with
    | .ErrNotFound => none
    | _ => some err
  | .ok result =>
    let err := result.Validate
    if err = none ∧ result.ID ≠ entry.ID then some .ErrEmailExists
    else none

/-- What a call of `AddEntry` leaves behind: the argument as it stands after the call (its
email is lower-cased through the pointer), the returned `*Entry` and the returned error. -/
structure AddResult where
  entry : Entry
  res : Option Entry
  err : Option GoError
deriving DecidableEq, Repr

/-- The method `AddEntry`. -/
def AddEntry (s : MongoService) (entry : Entry) : AddResult × MongoService :=
  let entry := { entry with Email := ToLower entry.Email }
  let result := checkIfEmailExists s entry
  match result with
  | some r => ({ entry := entry, res := none, err := some r }, s)
  | none =>
    match Insert s entry with
    | (some err, s1) => ({ entry := entry, res := none, err := some err }, s1)
    | (none, s1) =>
      match FindOne s1 (fun d => d.Email == entry.Email) with
      | .ok newEntry => ({ entry := entry, res := some newEntry, err := none }, s1)
      | .error err => ({ entry := entry, res := some Entry.zero, err := some err }, s1)

/-- The method `UpdateEntry`; returns the argument as it stands after the call and the
error. -/
def UpdateEntry (s : MongoService) (entry : Entry) : (Entry × Option GoError) × MongoService :=
  let entry := { entry with Email := ToLower entry.Email }
  let result := checkIfEmailExists s entry
  match result with
  | some r => ((entry, some r), s)
  | none =>
    match Update s entry.ID entry with
    | (err, s1) => ((entry, err), s1)

/-- The method `DeleteEntryByID`. -/
def DeleteEntryByID (s : MongoService) (id : String) : Option GoError × MongoService :=
  let valid := IsObjectIdHex id
  if !valid then (some .ErrInvalidID, s)
  else Remove s (ObjectIdHex id)

/-- A file: its name and what it holds. -/
structure File where
  name : String
  contents : String
deriving DecidableEq, Repr

/-- The file-system and CSV library calls the import and export go through; their
outcomes are inputs of the model. -/
structure Lib where
  /-- The call `os.Open(file.Name())`. -/
  Open : File → Except GoError File
  /-- The call `gocsv.UnmarshalFile`: the rows of the file, or a parse error. -/
  UnmarshalFile : File → Except GoError (List Entry)
  /-- The call `ioutil.TempFile(os.TempDir(), "tmp.*.csv")`. -/
  TempFile : Except GoError File
  /-- The call `gocsv.MarshalFile`: the CSV text of the entries, or an error. -/
  MarshalFile : List Entry → Except GoError String
  /-- The call `io.Copy(tmpFile, file)`, whose error the handler drops: what the temporary
  file holds afterwards. -/
  Copy : String → String

/-- The `for _, entry := range entries` loop of `CSVToEntries`, with the variables
`failedEntries` and `err` it updates, followed by the code after the loop. -/
def csvLoop : List Entry → List Entry → Option GoError → MongoService →
    (List Entry × Option GoError) × MongoService
  | [], failedEntries, err, s =>
    let err := if failedEntries.length > 0 then some .ErrEmailExists else err
    ((failedEntries, err), s)
  | entry :: rest, failedEntries, _, s =>
    if entry.ID ≠ "" then
      match UpdateEntry s entry with
      | ((entry, err), s1) =>
        match err with
        | some .ErrEmailExists => csvLoop rest (failedEntries ++ [entry]) err s1
        | some _ => ((failedEntries, err), s1)
        | none => csvLoop rest failedEntries err s1
    else
      match AddEntry s entry with
      | (r, s1) =>
        match r.err with
        | some .ErrEmailExists => csvLoop rest (failedEntries ++ [r.entry]) r.err s1
        | some _ => ((failedEntries, r.err), s1)
        | none => csvLoop rest failedEntries r.err s1

/-- The method `CSVToEntries`. -/
def CSVToEntries (lib : Lib) (s : MongoService) (file : File) :
    (List Entry × Option GoError) × MongoService :=
  match lib.Open file with
  | .error err => (([], some err), s)
  | .ok entryFile =>
    match lib.UnmarshalFile entryFile with
    | .error err => (([], some err), s)
    | .ok entries => csvLoop entries [] none s

/-- The method `EntriesToCSV`. -/
def EntriesToCSV (lib : Lib) (s : MongoService) : Option File × Option GoError :=
  match lib.TempFile with
  | .error err => (none, some err)
  | .ok entriesFile =>
    match lib.MarshalFile s.docs with
    | .error err => (none, some err)
    | .ok text => (some { entriesFile with contents := text }, none)

/-! ## The HTTP layer (`handler/handler.go`, `handler/errors.go`)

A handler runs over a `World`: the response writer, the state behind `h.Service`, the
service calls made so far and the lines the logger printed. -/

/-- Status codes of `net/http` used by the handlers. -/
def StatusOK : Nat := 200

/-- The constant `http.StatusAccepted`. -/
def StatusAccepted : Nat := 202

/-- The constant `http.StatusBadRequest`. -/
def StatusBadRequest : Nat := 400

/-- The constant `http.StatusInternalServerError`. -/
def StatusInternalServerError : Nat := 500

/-- A value written to the response body: what was handed to
`json.NewEncoder(w).Encode` (the structs `errorResponse` and `postCSVError`, a `*Entry`,
a `[]*Entry`), or the bytes of a file copied by `io.Copy`. -/
inductive Payload where
  | errorResponse (Err : String)
  | postCSVError (Err : String) (InvalidEntries : List Entry)
  | entry (e : Option Entry)
  | entries (es : List Entry)
  | bytes (contents : String)
deriving DecidableEq, Repr

/-- An `http.ResponseWriter`: the headers set, the status code sent (fixed by the first
`WriteHeader`, or `200` by the first write), the body written, and every `WriteHeader`
call the handler made, in order. -/
structure ResponseWriter where
  header : List (String × String)
  status : Option Nat
  body : List Payload
  writeHeaderCalls : List Nat
deriving DecidableEq, Repr

/-- A writer nothing has been written to yet. -/
def ResponseWriter.fresh (header : List (String × String)) : ResponseWriter :=
  { header := header, status := none, body := [], writeHeaderCalls := [] }

/-- The method `w.WriteHeader(code)`: only the first status counts. -/
def ResponseWriter.WriteHeader (w : ResponseWriter) (code : Nat) : ResponseWriter :=
  { w with status := some (w.status.getD code), writeHeaderCalls := w.writeHeaderCalls ++ [code] }

/-- The method `w.Write`: sends status `200` first when no status was written. -/
def ResponseWriter.Write (w : ResponseWriter) (p : Payload) : ResponseWriter :=
  { w with status := some (w.status.getD StatusOK), body := w.body ++ [p] }

/-- The method `w.Header().Set(key, value)`. -/
def ResponseWriter.SetHeader (w : ResponseWriter) (key value : String) : ResponseWriter :=
  { w with header := (key, value) :: w.header.filter (fun kv => kv.1 != key) }

/-- The method `w.Header().Get(key)`: the value set for the key, `""` when there is none. -/
def ResponseWriter.GetHeader (w : ResponseWriter) (key : String) : String :=
  match w.header.find? (fun kv => kv.1 == key) with
  | some kv => kv.2
  | none => ""

/-- A call of a `ContactService` method, with its arguments. -/
inductive Call where
  | AllEntries
  | EntryByID (id : String)
  | AddEntry (entry : Entry)
  | UpdateEntry (entry : Entry)
  | DeleteEntryByID (id : String)
  | EntriesToCSV
  | CSVToEntries (file : File)
deriving DecidableEq, Repr

/-- The interface `ContactService` over a service state `σ`: each method returns what the
Go method returns, and the state it leaves. -/
structure ContactService (σ : Type) where
  AllEntries : σ → (List Entry × Option GoError) × σ
  EntryByID : String → σ → (Option Entry × Option GoError) × σ
  AddEntry : Entry → σ → (Option Entry × Option GoError) × σ
  UpdateEntry : Entry → σ → Option GoError × σ
  DeleteEntryByID : String → σ → Option GoError × σ
  EntriesToCSV : σ → (Option File × Option GoError) × σ
  CSVToEntries : File → σ → (List Entry × Option GoError) × σ

/-- The `MongoService` as a `ContactService`. -/
def mongoService (lib : Lib) : ContactService MongoService where
  AllEntries := fun s => (AllEntries s, s)
  EntryByID := fun id s => (EntryByID s id, s)
  AddEntry := fun entry s => (((AddEntry s entry).1.res, (AddEntry s entry).1.err), (AddEntry s entry).2)
  UpdateEntry := fun entry s => ((UpdateEntry s entry).1.2, (UpdateEntry s entry).2)
  DeleteEntryByID := fun id s => DeleteEntryByID s id
  EntriesToCSV := fun s => (EntriesToCSV lib s, s)
  CSVToEntries := fun file s => CSVToEntries lib s file

/-- What a handler runs over. -/
structure World (σ : Type) where
  w : ResponseWriter
  svc : σ
  calls : List Call
  log : List String

/-- The uploaded part returned by `r.FormFile("file")`: its bytes and the `Content-Type`
its header declares. -/
structure FormFile where
  contents : String
  contentType : String
deriving DecidableEq, Repr

/-- An `*http.Request`, as far as the handlers read it: the outcome of decoding the body
into an `Entry` (`json.NewDecoder(r.Body).Decode`) and the outcome of `r.FormFile("file")`. -/
structure Request where
  Body : Except GoError Entry
  FormFile : Except GoError FormFile

/-- The route parameters `httprouter.Params`. -/
abbrev Params := List (String × String)

/-- The method `ps.ByName`: the value of the first parameter of that name, else `""`. -/
def Params.ByName (ps : Params) (name : String) : String :=
  match ps.find? (fun kv => kv.1 == name) with
  | some kv => kv.2
  | none => ""

/-- The type `httprouter.Handle`. -/
abbrev Handle (σ : Type) := Request → Params → World σ → World σ

/-- The function `middleware.Add`: the loop `for _, mw := range middleware { h = mw(h) }`. -/
def Add {σ : Type} : Handle σ → List (Handle σ → Handle σ) → Handle σ
  | h, [] => h
  | h, mw :: rest => Add (mw h) rest

/-- The middleware `SetHeaders`. -/
def SetHeaders {σ : Type} (h : Handle σ) : Handle σ := fun r ps x =>
  h r ps { x with w := x.w.SetHeader "Content-Type" "application/json" }

/-- The function `Error` of `handler/errors.go`. -/
def Error {σ : Type} (x : World σ) (err : GoError) (code : Nat) : World σ :=
  { x with
    log := x.log ++ ["http error: " ++ err.Error ++ " (code=" ++ toString code ++ ")"]
    w := (x.w.WriteHeader code).Write (.errorResponse err.Error) }

/-- The function `decodeAndValidate`, on an `*Entry`: a decoding error, else a validation
error, else the decoded entry. -/
def decodeAndValidate (r : Request) : Except GoError Entry :=
  match r.Body with
  | .error err => .error err
  | .ok v =>
    match v.Validate with
    | some err => .error err
    | none => .ok v

/-- The function `encodeJSON`; encoding the structs of this program does not fail. -/
def encodeJSON {σ : Type} (x : World σ) (v : Payload) : World σ :=
  { x with w := x.w.Write v }

/-- The handler `HandleGetEntries`. -/
def HandleGetEntries {σ : Type} (h : ContactService σ) : Handle σ := fun _ _ x =>
  match h.AllEntries x.svc with
  | ((res, err), svc) =>
    let x := { x with svc := svc, calls := x.calls ++ [Call.AllEntries] }
    match err with
    | some err => Error x err StatusInternalServerError
    | none => encodeJSON x (.entries res)

/-- The handler `HandleGetEntryByID`. -/
def HandleGetEntryByID {σ : Type} (h : ContactService σ) : Handle σ := fun _ ps x =>
  let id := ps.ByName "id"
  if id = "" then Error x .ErrNoIDParam StatusBadRequest
  else
    match h.EntryByID id x.svc with
    | ((res, err), svc) =>
      let x := { x with svc := svc, calls := x.calls ++ [Call.EntryByID id] }
      match err with
      | some err =>
        match err with
        | .ErrInvalidID => Error x err StatusBadRequest
        | _ => Error x err StatusOK
      | none => encodeJSON x (.entry res)

/-- The handler `HandlePostEntry`. -/
def HandlePostEntry {σ : Type} (h : ContactService σ) : Handle σ := fun r _ x =>
  match decodeAndValidate r with
  | .error err => Error x err StatusBadRequest
  | .ok entry =>
    match h.AddEntry entry x.svc with
    | ((res, err), svc) =>
      let x := { x with svc := svc, calls := x.calls ++ [Call.AddEntry entry] }
      match err with
      | some err => Error x err StatusInternalServerError
      | none => encodeJSON x (.entry res)

/-- The handler `HandlePutEntry`.  The error branch after `UpdateEntry` has no `return`, so
control goes on to `w.WriteHeader(http.StatusAccepted)`. -/
def HandlePutEntry {σ : Type} (h : ContactService σ) : Handle σ := fun r _ x =>
  match decodeAndValidate r with
  | .error err => Error x err StatusBadRequest
  | .ok entry =>
    if entry.ID = "" then Error x .ErrNoID StatusBadRequest
    else
      match h.UpdateEntry entry x.svc with
      | (err, svc) =>
        let x := { x with svc := svc, calls := x.calls ++ [Call.UpdateEntry entry] }
        let x := match err with
          | some err => Error x err StatusInternalServerError
          | none => x
        { x with w := x.w.WriteHeader StatusAccepted }

/-- The handler `HandleDeleteEntryByID`. -/
def HandleDeleteEntryByID {σ : Type} (h : ContactService σ) : Handle σ := fun _ ps x =>
  let id := ps.ByName "id"
  if id = "" then Error x .ErrNoIDParam StatusBadRequest
  else
    match h.DeleteEntryByID id x.svc with
    | (err, svc) =>
      let x := { x with svc := svc, calls := x.calls ++ [Call.DeleteEntryByID id] }
      match err with
      | some err => Error x err StatusInternalServerError
      | none => { x with w := x.w.WriteHeader StatusOK }

/-- The handler `HandleGetCSV`. -/
def HandleGetCSV {σ : Type} (h : ContactService σ) : Handle σ := fun _ _ x =>
  match h.EntriesToCSV x.svc with
  | ((res, err), svc) =>
    let x := { x with svc := svc, calls := x.calls ++ [Call.EntriesToCSV] }
    match err with
    | some err => Error x err StatusInternalServerError
    | none =>
      let w := x.w.SetHeader "Content-Disposition" "attachment; filename=entries.csv"
      let w := w.SetHeader "Content-Type" "text/csv"
      let w := w.WriteHeader StatusOK
      { x with w := w.Write (.bytes ((res.map File.contents).getD "")) }

/-- The handler `HandlePostCSV`.  The `default` branch after `CSVToEntries` has no `return`,
so control goes on to `w.WriteHeader(http.StatusAccepted)`. -/
def HandlePostCSV {σ : Type} (h : ContactService σ) (lib : Lib) : Handle σ := fun r _ x =>
  match r.FormFile with
  | .error err => Error x err StatusBadRequest
  | .ok part =>
    let mimeType := part.contentType
    if mimeType ≠ "text/csv" then Error x .ErrInvalidFileType StatusBadRequest
    else
      match lib.TempFile with
      | .error err => Error x err StatusInternalServerError
      | .ok tmpFile =>
        let tmpFile := { tmpFile with contents := lib.Copy part.contents }
        match h.CSVToEntries tmpFile x.svc with
        | ((res, err), svc) =>
          let x := { x with svc := svc, calls := x.calls ++ [Call.CSVToEntries tmpFile] }
          match err with
          | some .ErrEmailExists =>
            encodeJSON x (.postCSVError GoError.ErrEmailExists.Error res)
          | some err =>
            let x := Error x err StatusInternalServerError
            { x with w := x.w.WriteHeader StatusAccepted }
          | none => { x with w := x.w.WriteHeader StatusAccepted }

/-! ## Reference definitions used to state the theorems -/

/-- The service call the loop of `CSVToEntries` makes for one row: `UpdateEntry` when the
id is non-empty, `AddEntry` when it is empty.  Gives the entry as it stands after the
call, the error, and the collection. -/
def applyRow (s : MongoService) (entry : Entry) : (Entry × Option GoError) × MongoService :=
  if entry.ID ≠ "" then UpdateEntry s entry
  else (((AddEntry s entry).1.entry, (AddEntry s entry).1.err), (AddEntry s entry).2)

/-- The collection after the rows have been applied one after the other, in order. -/
def applyRows (s : MongoService) (rows : List Entry) : MongoService :=
  rows.foldl (fun st e => (applyRow st e).2) s

/-- Each row paired with the error its call returns, when the rows are applied one after
the other, in order. -/
def rowTrace : MongoService → List Entry → List (Entry × Option GoError)
  | _, [] => []
  | s, e :: es => (e, (applyRow s e).1.2) :: rowTrace (applyRow s e).2 es

/-- The rows whose call returns `ErrEmailExists`, in file order. -/
def collidedRows (s : MongoService) (rows : List Entry) : List Entry :=
  ((rowTrace s rows).filter (fun o => o.2 == some GoError.ErrEmailExists)).map (fun o => o.1)

/-- The rows whose call returns no error, in file order. -/
def appliedRows (s : MongoService) (rows : List Entry) : List Entry :=
  ((rowTrace s rows).filter (fun o => o.2 == none)).map (fun o => o.1)

/-- An entry with its email lower-cased, as `AddEntry` and `UpdateEntry` leave their
argument. -/
def lowerEmail (e : Entry) : Entry := { e with Email := ToLower e.Email }

/-- A call of one of the four writing operations of the service. -/
inductive Op where
  | AddEntry (entry : Entry)
  | UpdateEntry (entry : Entry)
  | DeleteEntryByID (id : String)
  | CSVToEntries (file : File)

/-- The collection after one operation. -/
def Op.run (lib : Lib) (s : MongoService) : Op → MongoService
  | .AddEntry entry => (Contacts.AddEntry s entry).2
  | .UpdateEntry entry => (Contacts.UpdateEntry s entry).2
  | .DeleteEntryByID id => (Contacts.DeleteEntryByID s id).2
  | .CSVToEntries file => (Contacts.CSVToEntries lib s file).2

/-- The collection after a sequence of operations. -/
def runOps (lib : Lib) (s : MongoService) (ops : List Op) : MongoService :=
  ops.foldl (Op.run lib) s

/-- Every entry the operation carries passes `Validate`. -/
def Op.EntriesValid (lib : Lib) : Op → Prop
  | .AddEntry entry => entry.Validate = none
  | .UpdateEntry entry => entry.Validate = none
  | .DeleteEntryByID _ => True
  | .CSVToEntries file => ∀ entryFile rows, lib.Open file = .ok entryFile →
      lib.UnmarshalFile entryFile = .ok rows → ∀ e ∈ rows, e.Validate = none

/-- No two records of the collection share an email. -/
def NoSharedEmail (s : MongoService) : Prop :=
  s.docs.Pairwise (fun a b => a.Email ≠ b.Email)

/-- No two records with different ids have the same email. -/
def EmailUnique (s : MongoService) : Prop :=
  ∀ a ∈ s.docs, ∀ b ∈ s.docs, a.Email = b.Email → a.ID = b.ID

/-- The invariant the service keeps on valid input: every document carries an id, every
document passes `Validate`, and no two documents with different ids have the same
email. -/
def StoreInv (s : MongoService) : Prop :=
  (∀ d ∈ s.docs, d.ID ≠ "") ∧ (∀ d ∈ s.docs, d.Validate = none) ∧ EmailUnique s

/-- The world at the start of a request: a fresh writer with the headers set so far, the
service state, no service call made and nothing logged. -/
def World.start {σ : Type} (header : List (String × String)) (svc : σ) : World σ :=
  { w := ResponseWriter.fresh header, svc := svc, calls := [], log := [] }

/-- The invariant kept for one email: every document carries an id, every document
holding the email passes `Validate`, and all documents holding the email have the same
id. -/
def EmailInv (email : String) (s : MongoService) : Prop :=
  (∀ d ∈ s.docs, d.ID ≠ "") ∧ (∀ d ∈ s.docs, d.Email = email → d.Validate = none) ∧
  (∀ a ∈ s.docs, ∀ b ∈ s.docs, a.Email = email → b.Email = email → a.ID = b.ID)

end Parametric

/-! ## Worked examples

The closed examples below fix the lower-casing to `exUnicode`. -/

/-- The mapping `unicode.ToLower` on the code points the examples use: it is exact below
U+0100 (the capitals `A`-`Z` and `À`-`Þ` without `×` move up by 32) and on the basic Greek
and Cyrillic capitals; every other character is left as it is. -/
def exToLower (c : Char) : Char :=
  if (65 ≤ c.toNat ∧ c.toNat ≤ 90) ∨ (192 ≤ c.toNat ∧ c.toNat ≤ 222 ∧ c.toNat ≠ 215) ∨
      (913 ≤ c.toNat ∧ c.toNat ≤ 939 ∧ c.toNat ≠ 930) ∨ (1040 ≤ c.toNat ∧ c.toNat ≤ 1071) then
    Char.ofNat (c.toNat + 32)
  else if 1024 ≤ c.toNat ∧ c.toNat ≤ 1039 then Char.ofNat (c.toNat + 80)
  else c

/-- The lower-casing of the examples. -/
instance exUnicode : Unicode := ⟨exToLower⟩

/-- The empty collection. -/
def exEmpty : MongoService := { docs := [], idSeed := 0 }

/-- A valid entry that carries an id. -/
def exA : Entry :=
  { ID := "0123456789ab", FirstName := "Ann", LastName := "Lee", Email := "Ann@x.io", Phone := "1" }

/-- An entry without id whose email is that of `exA` in capitals. -/
def exB : Entry :=
  { ID := "", FirstName := "Bob", LastName := "Ray", Email := "ANN@X.IO", Phone := "2" }

/-- An update of `exA` under its own id, with the email in another letter case. -/
def exU : Entry :=
  { ID := "0123456789ab", FirstName := "Ann", LastName := "Poe", Email := "ann@X.io", Phone := "3" }

/-- A valid entry with another email. -/
def exC : Entry :=
  { ID := "cccccccccccc", FirstName := "Cy", LastName := "Orr", Email := "cy@x.io", Phone := "4" }

/-- An entry that fails `Validate` (empty first name) and has the email of `exA`
lower-cased. -/
def exD : Entry :=
  { ID := "", FirstName := "", LastName := "Doe", Email := "ann@x.io", Phone := "5" }

/-- A collection holding the one valid record `exC`. -/
def exStore : MongoService := { docs := [exC], idSeed := 7 }

/-- The empty collection after `AddEntry` of `exD`: it holds one record that fails
`Validate`. -/
def exDirty : MongoService := (AddEntry exEmpty exD).2

/-- A library whose files always open and whose CSV text is read by `rows`. -/
def exLib (rows : String → List Entry) : Lib where
  Open := fun file => .ok file
  UnmarshalFile := fun file => .ok (rows file.contents)
  TempFile := .ok { name := "tmp.1.csv", contents := "" }
  MarshalFile := fun _ => .ok ""
  Copy := fun contents => contents

/-- A CSV row without id and with a new email: it is added. -/
def exRowNew : Entry :=
  { ID := "", FirstName := "Eve", LastName := "Fox", Email := "Eve@x.io", Phone := "6" }

/-- A CSV row without id whose lower-cased email is that of `exC`: it collides. -/
def exRowDup : Entry :=
  { ID := "", FirstName := "Gil", LastName := "Hay", Email := "CY@x.io", Phone := "7" }

/-- A CSV row carrying the id of `exC` and its email: it updates `exC`. -/
def exRowUpd : Entry :=
  { ID := "cccccccccccc", FirstName := "Cy", LastName := "Orr", Email := "cy@x.io", Phone := "8" }

/-- A CSV row carrying an id that no document has: its update returns `mgo.ErrNotFound`. -/
def exRowGone : Entry :=
  { ID := "gggggggggggg", FirstName := "Ian", LastName := "Jay", Email := "ian@x.io", Phone := "9" }

/-- A CSV row that fails `Validate`: its first name is empty. -/
def exRowBad : Entry :=
  { ID := "", FirstName := "", LastName := "Kay", Email := "kay@x.io", Phone := "10" }

/-- An uploaded CSV file; `exLib` decides which rows it parses into. -/
def exFile : File := { name := "tmp.1.csv", contents := "" }

/-- A request without body and without form file. -/
def exRequest : Request :=
  { Body := .error (.other "EOF"), FormFile := .error (.other "http: no such file") }

/-- The library of the examples, with a CSV reader that finds no rows. -/
def exLib0 : Lib := exLib fun _ => []

/-- The hexadecimal form of the id of `exC`. -/
def exHexC : String := "636363636363636363636363"

/-- The hexadecimal form of the id `0123456789ab`, which no document of `exStore` has. -/
def exHexA : String := "303132333435363738396162"

/-- An upload declared as `text/csv`. -/
def exPartCSV : FormFile := { contents := "ID,FirstName,LastName,Email,Phone", contentType := "text/csv" }

/-- An upload declared as `application/json`. -/
def exPartJSON : FormFile := { contents := "ID,FirstName,LastName,Email,Phone", contentType := "application/json" }

/-- A valid entry without id whose email starts with a capital outside ASCII. -/
def exAccA : Entry :=
  { ID := "", FirstName := "Àgnes", LastName := "Lee", Email := "À@x.io", Phone := "11" }

/-- An entry without id whose email is that of `exAccA` in small letters. -/
def exAccB : Entry :=
  { ID := "", FirstName := "Bob", LastName := "Ray", Email := "à@x.io", Phone := "12" }

/-- An entry that fails `Validate` (empty first name), with the id of `exA` and its
email. -/
def exBadA : Entry :=
  { ID := "0123456789ab", FirstName := "", LastName := "Lee", Email := "ann@x.io", Phone := "1" }

/-- An entry that fails `Validate` (empty first name), with the id of `exC` and the email
of `exA`. -/
def exBadC : Entry :=
  { ID := "cccccccccccc", FirstName := "", LastName := "Orr", Email := "ann@x.io", Phone := "4" }

/-- Further calls on valid entries: an add, an update of `exC`, a CSV import and a delete
of `exC`. -/
def exOps : List Op :=
  [Op.AddEntry exRowNew, Op.UpdateEntry exRowUpd, Op.CSVToEntries exFile,
    Op.DeleteEntryByID exHexC]

/-! ## Theorems that do not depend on the lower-casing -/

/-! ### Basic facts about the library functions -/

theorem NewObjectId_length (n : Nat) : (NewObjectId n).length = 12 := by
  simp [NewObjectId, String.length]

theorem NewObjectId_ne_empty (n : Nat) : NewObjectId n ≠ "" := by
  intro h
  have h12 := NewObjectId_length n
  rw [h] at h12
  simp at h12

theorem bsonIdError_none {id : ObjectId} (h : bsonIdError id = none) : id.length = 12 := by
  unfold bsonIdError at h
  by_contra hne
  simp [hne] at h

theorem ne_empty_of_length {id : ObjectId} (h : id.length = 12) : id ≠ "" := by
  intro he
  rw [he] at h
  simp at h

theorem Validate_eq_none_iff {e : Entry} :
    e.Validate = none ↔
      e.FirstName ≠ "" ∧ e.LastName ≠ "" ∧ e.Email ≠ "" ∧ e.Phone ≠ "" := by
  unfold Entry.Validate
  by_cases h1 : e.FirstName = "" <;> by_cases h2 : e.LastName = "" <;>
    by_cases h3 : e.Email = "" <;> by_cases h4 : e.Phone = "" <;> simp [h1, h2, h3, h4]

/-! ### Validation -/

/-- C1: `Entry.Validate` returns the error of the first failing check in the order
FirstName, LastName, Email, Phone (`ErrInvalidName`, `ErrInvalidName`, `ErrInvalidEmail`,
`ErrInvalidPhone`), it returns nil exactly when the four fields are all non-empty, and
the `ID` field never affects the result. -/
theorem Validate_first_failing_check (e : Entry) :
    (e.FirstName = "" → e.Validate = some .ErrInvalidName) ∧
    (e.FirstName ≠ "" → e.LastName = "" → e.Validate = some .ErrInvalidName) ∧
    (e.FirstName ≠ "" → e.LastName ≠ "" → e.Email = "" →
      e.Validate = some .ErrInvalidEmail) ∧
    (e.FirstName ≠ "" → e.LastName ≠ "" → e.Email ≠ "" → e.Phone = "" →
      e.Validate = some .ErrInvalidPhone) ∧
    (e.Validate = none ↔
      e.FirstName ≠ "" ∧ e.LastName ≠ "" ∧ e.Email ≠ "" ∧ e.Phone ≠ "") ∧
    (∀ id : ObjectId, ({ e with ID := id } : Entry).Validate = e.Validate) := by
  refine ⟨?_, ?_, ?_, ?_, ?_, ?_⟩
  · intro h1
    simp [Entry.Validate, h1]
  · intro h1 h2
    simp [Entry.Validate, h1, h2]
  · intro h1 h2 h3
    simp [Entry.Validate, h1, h2, h3]
  · intro h1 h2 h3 h4
    simp [Entry.Validate, h1, h2, h3, h4]
  · exact Validate_eq_none_iff
  · intro id
    rfl

/-! ### Facts about the collection -/

theorem FindOne_ok {s : MongoService} {p : Entry → Bool} {d : Entry}
    (h : FindOne s p = .ok d) : s.docs.find? p = some d := by
  unfold FindOne at h
  cases hf : s.docs.find? p with
  | none => simp [hf] at h
  | some d0 =>
    simp only [hf, Except.ok.injEq] at h
    rw [h]

theorem FindOne_error {s : MongoService} {p : Entry → Bool} {err : GoError}
    (h : FindOne s p = .error err) : err = .ErrNotFound ∧ s.docs.find? p = none := by
  unfold FindOne at h
  cases hf : s.docs.find? p with
  | none =>
    simp only [hf, Except.error.injEq] at h
    exact ⟨h.symm, rfl⟩
  | some d0 => simp [hf] at h

theorem checkIfEmailExists_of_find_none {s : MongoService} {entry : Entry}
    (h : s.docs.find? (fun d => d.Email == entry.Email) = none) :
    checkIfEmailExists s entry = none := by
  simp [checkIfEmailExists, FindOne, h]

theorem checkIfEmailExists_of_find_some {s : MongoService} {entry result : Entry}
    (h : s.docs.find? (fun d => d.Email == entry.Email) = some result) :
    checkIfEmailExists s entry =
      if result.Validate = none ∧ result.ID ≠ entry.ID then some .ErrEmailExists else none := by
  simp [checkIfEmailExists, FindOne, h]

theorem checkIfEmailExists_cases (s : MongoService) (entry : Entry) :
    checkIfEmailExists s entry = none ∨ checkIfEmailExists s entry = some .ErrEmailExists := by
  cases hf : s.docs.find? (fun d => d.Email == entry.Email) with
  | none => exact Or.inl (checkIfEmailExists_of_find_none hf)
  | some result =>
    rw [checkIfEmailExists_of_find_some hf]
    split
    · exact Or.inr rfl
    · exact Or.inl rfl

theorem Insert_ok {s s1 : MongoService} {entry : Entry} (h : Insert s entry = (none, s1)) :
    ∃ id : ObjectId, id.length = 12 ∧ (entry.ID ≠ "" → id = entry.ID) ∧
      (entry.ID = "" → id = NewObjectId s.idSeed) ∧
      s1.docs = s.docs ++ [{ entry with ID := id }] ∧ ∀ d ∈ s.docs, d.ID ≠ id := by
  unfold Insert at h
  by_cases he : entry.ID = ""
  · simp only [he, if_true] at h
    by_cases hany : (s.docs.any fun d => d.ID == NewObjectId s.idSeed) = true
    · simp [hany] at h
    · simp only [hany] at h
      simp only [Bool.false_eq_true, if_false, Prod.mk.injEq, true_and] at h
      refine ⟨NewObjectId s.idSeed, NewObjectId_length _, fun hne => absurd he hne, fun _ => rfl, ?_, ?_⟩
      · rw [← h]
      · intro d hd hid
        apply hany
        simp only [List.any_eq_true, beq_iff_eq]
        exact ⟨d, hd, hid⟩
  · simp only [he, if_false] at h
    cases hb : bsonIdError entry.ID with
    | some err => simp [hb] at h
    | none =>
      simp only [hb] at h
      by_cases hany : (s.docs.any fun d => d.ID == entry.ID) = true
      · simp [hany] at h
      · simp only [hany] at h
        simp only [Bool.false_eq_true, if_false, Prod.mk.injEq, true_and] at h
        refine ⟨entry.ID, bsonIdError_none hb, fun _ => rfl, fun h0 => absurd h0 he, ?_, ?_⟩
        · rw [← h]
        · intro d hd hid
          apply hany
          simp only [List.any_eq_true, beq_iff_eq]
          exact ⟨d, hd, hid⟩

theorem Insert_error {s s1 : MongoService} {entry : Entry} {err : GoError}
    (h : Insert s entry = (some err, s1)) : s1.docs = s.docs := by
  unfold Insert at h
  by_cases he : entry.ID = ""
  · simp only [he, if_true] at h
    by_cases hany : (s.docs.any fun d => d.ID == NewObjectId s.idSeed) = true
    · simp only [hany, if_true, Prod.mk.injEq] at h
      rw [← h.2]
    · simp [hany] at h
  · simp only [he, if_false] at h
    cases hb : bsonIdError entry.ID with
    | some err0 =>
      simp only [hb, Prod.mk.injEq] at h
      rw [← h.2]
    | none =>
      simp only [hb] at h
      by_cases hany : (s.docs.any fun d => d.ID == entry.ID) = true
      · simp only [hany, if_true, Prod.mk.injEq] at h
        rw [← h.2]
      · simp [hany] at h

theorem replaceFirst_append_of_not_mem (id : ObjectId) (doc a : Entry) (l : List Entry)
    (h : ∀ d ∈ l, d.ID ≠ id) (ha : a.ID = id) :
    replaceFirst id doc (l ++ [a]) = l ++ [doc] := by
  induction l with
  | nil => simp [replaceFirst, ha]
  | cons x xs ih =>
    have hx : x.ID ≠ id := h x (List.mem_cons_self _ _)
    have hxs : ∀ d ∈ xs, d.ID ≠ id := fun d hd => h d (List.mem_cons_of_mem _ hd)
    simp [replaceFirst, hx, ih hxs]

theorem find?_append_singleton_of_none (p : Entry → Bool) (a : Entry) (l : List Entry)
    (h : l.find? p = none) (ha : p a = true) : (l ++ [a]).find? p = some a := by
  simp [List.find?_append, h, ha]

/-! ### The CSV import loop -/

theorem Update_error {s s1 : MongoService} {id : ObjectId} {entry : Entry} {err : GoError}
    (h : Update s id entry = (some err, s1)) : s1 = s ∧ err ≠ .ErrEmailExists := by
  unfold Update at h
  split at h
  · rename_i e0 hb
    simp only [Prod.mk.injEq, Option.some.injEq] at h
    refine ⟨h.2.symm, ?_⟩
    rw [← h.1]
    unfold bsonIdError at hb
    split at hb
    · simp at hb
    · simp only [Option.some.injEq] at hb
      rw [← hb]
      simp
  · split at h
    · simp only [Prod.mk.injEq, Option.some.injEq] at h
      refine ⟨h.2.symm, ?_⟩
      rw [← h.1]
      simp
    · split at h
      · simp at h
      · simp only [Prod.mk.injEq, Option.some.injEq] at h
        refine ⟨h.2.symm, ?_⟩
        rw [← h.1]
        simp

theorem Insert_error_ne {s s1 : MongoService} {entry : Entry} {err : GoError}
    (h : Insert s entry = (some err, s1)) : err ≠ .ErrEmailExists := by
  unfold Insert at h
  split at h
  · simp only at h
    split at h
    · simp only [Prod.mk.injEq, Option.some.injEq] at h
      rw [← h.1]
      simp
    · simp at h
  · split at h
    · rename_i e0 hb
      simp only [Prod.mk.injEq, Option.some.injEq] at h
      rw [← h.1]
      unfold bsonIdError at hb
      split at hb
      · simp at hb
      · simp only [Option.some.injEq] at hb
        rw [← hb]
        simp
    · split at h
      · simp only [Prod.mk.injEq, Option.some.injEq] at h
        rw [← h.1]
        simp
      · simp at h

/-- After a successful `Insert` the final query of `AddEntry` finds a document. -/
theorem FindOne_after_Insert {s s1 : MongoService} {entry : Entry}
    (h : Insert s entry = (none, s1)) :
    ∃ d, FindOne s1 (fun d => d.Email == entry.Email) = .ok d := by
  obtain ⟨id, _, _, _, hdocs, _⟩ := Insert_ok h
  unfold FindOne
  cases hf : s1.docs.find? (fun d => d.Email == entry.Email) with
  | some d => exact ⟨d, rfl⟩
  | none =>
    exfalso
    rw [hdocs] at hf
    simp at hf

/-! ### Email uniqueness -/

theorem StoreInv_of_docs_eq {s s1 : MongoService} (h : s1.docs = s.docs) (hs : StoreInv s) :
    StoreInv s1 := by
  unfold StoreInv EmailUnique at hs ⊢
  rw [h]
  exact hs

theorem EmailUnique_of_NoSharedEmail {s : MongoService} (h : NoSharedEmail s) :
    EmailUnique s := by
  intro a ha b hb hab
  by_cases hne : a = b
  · rw [hne]
  · exfalso
    have hsymm : Symmetric (fun a b : Entry => a.Email ≠ b.Email) :=
      fun x y hxy hyx => hxy hyx.symm
    exact (List.Pairwise.forall hsymm h ha hb hne) hab

theorem mem_replaceFirst {id : ObjectId} {doc x : Entry} {l : List Entry}
    (h : x ∈ replaceFirst id doc l) : x = doc ∨ x ∈ l := by
  induction l with
  | nil => simp [replaceFirst] at h
  | cons y ys ih =>
    unfold replaceFirst at h
    split at h
    · rcases List.mem_cons.mp h with h1 | h2
      · exact Or.inl h1
      · exact Or.inr (List.mem_cons_of_mem _ h2)
    · rcases List.mem_cons.mp h with h1 | h2
      · exact Or.inr (by rw [h1]; exact List.mem_cons_self _ _)
      · rcases ih h2 with h3 | h4
        · exact Or.inl h3
        · exact Or.inr (List.mem_cons_of_mem _ h4)

theorem mem_removeFirst {id : ObjectId} {x : Entry} {l : List Entry}
    (h : x ∈ removeFirst id l) : x ∈ l := by
  induction l with
  | nil => simp [removeFirst] at h
  | cons y ys ih =>
    unfold removeFirst at h
    split at h
    · exact List.mem_cons_of_mem _ h
    · rcases List.mem_cons.mp h with h1 | h2
      · rw [h1]; exact List.mem_cons_self _ _
      · exact List.mem_cons_of_mem _ (ih h2)

/-- A document sharing the email of an entry that passed the uniqueness check, in a
collection of valid documents with unique emails, has the id of that entry. -/
theorem id_eq_of_check_none {s : MongoService} {entry b : Entry} (hs : StoreInv s)
    (hc : checkIfEmailExists s entry = none) (hb : b ∈ s.docs)
    (hmail : b.Email = entry.Email) : b.ID = entry.ID := by
  cases hf : s.docs.find? (fun d => d.Email == entry.Email) with
  | none =>
    exfalso
    have := List.find?_eq_none.mp hf b hb
    simp [hmail] at this
  | some d0 =>
    have hmem : d0 ∈ s.docs := List.mem_of_find?_eq_some hf
    have hm0 : d0.Email = entry.Email := by
      have := List.find?_some hf
      simpa using this
    rw [checkIfEmailExists_of_find_some hf] at hc
    have hsame : d0.ID = entry.ID := by
      by_contra hne
      simp [hs.2.1 d0 hmem, hne] at hc
    rw [← hsame]
    exact hs.2.2 b hb d0 hmem (hmail.trans hm0.symm)

theorem DeleteEntryByID_StoreInv {s : MongoService} (id : String) (hs : StoreInv s) :
    StoreInv (DeleteEntryByID s id).2 := by
  unfold DeleteEntryByID
  simp only
  split
  · exact hs
  · unfold Remove
    split
    · exact hs
    · split
      · unfold StoreInv EmailUnique
        simp only
        exact ⟨fun d hd => hs.1 d (mem_removeFirst hd),
          fun d hd => hs.2.1 d (mem_removeFirst hd),
          fun a ha b hb hab => hs.2.2 a (mem_removeFirst ha) b (mem_removeFirst hb) hab⟩
      · exact hs

/-! ### The invariant of one email -/

theorem EmailInv_of_docs_eq {email : String} {s s1 : MongoService} (h : s1.docs = s.docs)
    (hs : EmailInv email s) : EmailInv email s1 := by
  unfold EmailInv at hs ⊢
  rw [h]
  exact hs

/-- A document holding the email of an entry that passed the uniqueness check, in a
collection that keeps `EmailInv` for that email, has the id of that entry. -/
theorem id_eq_of_check_none_email {s : MongoService} (entry : Entry) {b : Entry}
    {email : String} (hs : EmailInv email s) (hc : checkIfEmailExists s entry = none)
    (he : entry.Email = email) (hb : b ∈ s.docs) (hmail : b.Email = email) :
    b.ID = entry.ID := by
  subst he
  cases hf : s.docs.find? (fun d => d.Email == entry.Email) with
  | none =>
    exfalso
    have := List.find?_eq_none.mp hf b hb
    simp [hmail] at this
  | some d0 =>
    have hmem : d0 ∈ s.docs := List.mem_of_find?_eq_some hf
    have hm0 : d0.Email = entry.Email := by
      have := List.find?_some hf
      simpa using this
    rw [checkIfEmailExists_of_find_some hf] at hc
    have hsame : d0.ID = entry.ID := by
      by_contra hne
      simp [hs.2.1 d0 hmem hm0, hne] at hc
    rw [← hsame]
    exact hs.2.2 b hb d0 hmem hmail hm0

theorem DeleteEntryByID_EmailInv {email : String} {s : MongoService} (id : String)
    (hs : EmailInv email s) : EmailInv email (DeleteEntryByID s id).2 := by
  unfold DeleteEntryByID
  simp only
  split
  · exact hs
  · unfold Remove
    split
    · exact hs
    · split
      · unfold EmailInv
        simp only
        exact ⟨fun d hd => hs.1 d (mem_removeFirst hd),
          fun d hd hm => hs.2.1 d (mem_removeFirst hd) hm,
          fun a ha b hb hae hbe =>
            hs.2.2 a (mem_removeFirst ha) b (mem_removeFirst hb) hae hbe⟩
      · exact hs

/-! ### Object ids in hexadecimal -/

theorem utf8Size_of_le {c d : Char} (h : c ≤ d) (hd : d.val.toNat ≤ 127) : c.utf8Size = 1 := by
  have h2 : c.val.toNat ≤ d.val.toNat := by
    have h0 := h
    rw [Char.le_def] at h0
    exact h0
  have h3 : c.val ≤ 127 := by
    show c.val.toNat ≤ 127
    omega
  simp [Char.utf8Size, h3]

theorem hexVal_utf8Size {c : Char} (h : (hexVal c).isSome) : c.utf8Size = 1 := by
  unfold hexVal at h
  by_cases h1 : '0' ≤ c ∧ c ≤ '9'
  · exact utf8Size_of_le h1.2 (by decide)
  · by_cases h2 : 'a' ≤ c ∧ c ≤ 'f'
    · exact utf8Size_of_le h2.2 (by decide)
    · by_cases h3 : 'A' ≤ c ∧ c ≤ 'F'
      · exact utf8Size_of_le h3.2 (by decide)
      · simp [h1, h2, h3] at h

theorem utf8ByteSize_go_eq (l : List Char) (h : ∀ c ∈ l, c.utf8Size = 1) :
    String.utf8ByteSize.go l = l.length := by
  induction l with
  | nil => rfl
  | cons c cs ih =>
    simp only [String.utf8ByteSize.go, List.length_cons]
    rw [ih (fun x hx => h x (List.mem_cons_of_mem _ hx)), h c (List.mem_cons_self _ _)]

theorem hexDecode_some : ∀ (l bs : List Char), hexDecode l = some bs →
    (∀ c ∈ l, c.utf8Size = 1) ∧ l.length = 2 * bs.length
  | [], bs, h => by
    simp only [hexDecode, Option.some.injEq] at h
    subst h
    simp
  | [_], bs, h => by simp [hexDecode] at h
  | hi :: lo :: rest, bs, h => by
    unfold hexDecode at h
    cases h1 : hexVal hi with
    | none => simp [h1] at h
    | some a =>
      cases h2 : hexVal lo with
      | none => simp [h1, h2] at h
      | some b =>
        cases h3 : hexDecode rest with
        | none => simp [h1, h2, h3] at h
        | some bs0 =>
          simp only [h1, h2, h3, Option.some.injEq] at h
          subst h
          obtain ⟨ih1, ih2⟩ := hexDecode_some rest bs0 h3
          refine ⟨?_, ?_⟩
          · intro c hc
            rcases List.mem_cons.mp hc with e1 | hc2
            · rw [e1]; exact hexVal_utf8Size (by simp [h1])
            · rcases List.mem_cons.mp hc2 with e2 | hc3
              · rw [e2]; exact hexVal_utf8Size (by simp [h2])
              · exact ih1 c hc3
          · simp only [List.length_cons]
            omega

theorem ObjectIdHex_length {id : String} (h : IsObjectIdHex id = true) :
    (ObjectIdHex id).length = 12 := by
  unfold IsObjectIdHex at h
  simp only [Bool.and_eq_true, beq_iff_eq] at h
  obtain ⟨hsize, hdec⟩ := h
  cases hd : hexDecode id.data with
  | none => simp [hd] at hdec
  | some bs =>
    obtain ⟨h1, h2⟩ := hexDecode_some id.data bs hd
    have hgo : id.utf8ByteSize = id.data.length := by
      cases id with
      | mk l => exact utf8ByteSize_go_eq l h1
    unfold ObjectIdHex
    simp only [hd, String.length]
    omega

theorem IsObjectIdHex_ne_empty {id : String} (h : IsObjectIdHex id = true) : id ≠ "" := by
  intro he
  rw [he] at h
  exact absurd h (by decide)

/-! ### The handlers -/

/-- C7: for a request whose `id` parameter is non-empty, `HandleGetEntryByID` answers 400
with the error body when the service returns `ErrInvalidID`, 200 with the error body when
it returns any other error, and 200 with the encoded entry when it returns none.
`MongoService.EntryByID` returns `ErrInvalidID` exactly when the id is not an object-id hex
string, then independently of the collection, and returns `mgo.ErrNotFound` for a
well-formed id that no document has. -/
theorem HandleGetEntryByID_responses {σ : Type} (h : ContactService σ) (r : Request)
    (ps : Params) (header : List (String × String)) (svc : σ)
    (hid : ps.ByName "id" ≠ "") :
    ((h.EntryByID (ps.ByName "id") svc).1.2 = some .ErrInvalidID →
      (HandleGetEntryByID h r ps (World.start header svc)).w.status = some 400 ∧
      (HandleGetEntryByID h r ps (World.start header svc)).w.body =
        [.errorResponse "ID value is invalid"]) ∧
    (∀ err, (h.EntryByID (ps.ByName "id") svc).1.2 = some err → err ≠ .ErrInvalidID →
      (HandleGetEntryByID h r ps (World.start header svc)).w.status = some 200 ∧
      (HandleGetEntryByID h r ps (World.start header svc)).w.body =
        [.errorResponse err.Error]) ∧
    ((h.EntryByID (ps.ByName "id") svc).1.2 = none →
      (HandleGetEntryByID h r ps (World.start header svc)).w.status = some 200 ∧
      (HandleGetEntryByID h r ps (World.start header svc)).w.body =
        [.entry (h.EntryByID (ps.ByName "id") svc).1.1]) ∧
    (∀ (s : MongoService) (id : String),
      (EntryByID s id).2 = some .ErrInvalidID ↔ IsObjectIdHex id = false) ∧
    (∀ (s s1 : MongoService) (id : String),
      IsObjectIdHex id = false → EntryByID s id = EntryByID s1 id) ∧
    (∀ (s : MongoService) (id : String), IsObjectIdHex id = true →
      (∀ d ∈ s.docs, d.ID ≠ ObjectIdHex id) → (EntryByID s id).2 = some .ErrNotFound) := by
  refine ⟨?_, ?_, ?_, ?_, ?_, ?_⟩
  · intro herr
    rcases hcall : h.EntryByID (ps.ByName "id") svc with ⟨⟨res, err⟩, svc1⟩
    rw [hcall] at herr
    simp only at herr
    subst herr
    simp [HandleGetEntryByID, hid, hcall, Error, World.start, ResponseWriter.fresh,
      ResponseWriter.WriteHeader, ResponseWriter.Write, StatusBadRequest, GoError.Error]
  · intro err herr hne
    rcases hcall : h.EntryByID (ps.ByName "id") svc with ⟨⟨res, err1⟩, svc1⟩
    rw [hcall] at herr
    simp only at herr
    subst herr
    cases err <;>
      simp [HandleGetEntryByID, hid, hcall, Error, World.start, ResponseWriter.fresh,
        ResponseWriter.WriteHeader, ResponseWriter.Write, StatusOK] at hne ⊢
  · intro herr
    rcases hcall : h.EntryByID (ps.ByName "id") svc with ⟨⟨res, err⟩, svc1⟩
    rw [hcall] at herr
    simp only at herr
    subst herr
    simp [HandleGetEntryByID, hid, hcall, encodeJSON, World.start, ResponseWriter.fresh,
      ResponseWriter.Write, StatusOK]
  · intro s id
    unfold EntryByID
    cases hv : IsObjectIdHex id with
    | false => simp
    | true =>
      simp only [Bool.not_true, Bool.false_eq_true, if_false]
      cases hf : FindOne s (fun d => d.ID == ObjectIdHex id) with
      | ok entry => simp
      | error err =>
        rw [(FindOne_error hf).1]
        simp
  · intro s s1 id hv
    simp [EntryByID, hv]
  · intro s id hv hno
    have hfind : s.docs.find? (fun d => d.ID == ObjectIdHex id) = none := by
      rw [List.find?_eq_none]
      intro d hd
      simpa using hno d hd
    simp [EntryByID, hv, FindOne, hfind]

theorem removeFirst_no_id (id : ObjectId) (l : List Entry)
    (h : l.Pairwise (fun a b => a.ID ≠ b.ID)) : ∀ d ∈ removeFirst id l, d.ID ≠ id := by
  induction l with
  | nil =>
    intro d hd
    simp [removeFirst] at hd
  | cons y ys ih =>
    intro d hd
    rw [List.pairwise_cons] at h
    unfold removeFirst at hd
    split at hd
    · rename_i hy
      rw [← hy]
      exact fun hdy => h.1 d hd hdy.symm
    · rename_i hy
      rcases List.mem_cons.mp hd with h1 | h2
      · rw [h1]
        exact hy
      · exact ih h.2 d h2

/-- What `DeleteEntryByID` returns for a well-formed id: nil, removing the first document
with that id, when there is one; `mgo.ErrNotFound`, changing nothing, when there is none. -/
theorem DeleteEntryByID_wellformed (s : MongoService) (id : String)
    (hwf : IsObjectIdHex id = true) :
    ((∃ d ∈ s.docs, d.ID = ObjectIdHex id) →
      DeleteEntryByID s id = (none, { s with docs := removeFirst (ObjectIdHex id) s.docs })) ∧
    ((∀ d ∈ s.docs, d.ID ≠ ObjectIdHex id) →
      DeleteEntryByID s id = (some .ErrNotFound, s)) := by
  have hb : bsonIdError (ObjectIdHex id) = none := by
    simp [bsonIdError, ObjectIdHex_length hwf]
  refine ⟨?_, ?_⟩
  · intro hex
    have hany : (s.docs.any fun d => d.ID == ObjectIdHex id) = true := by
      simpa using hex
    simp [DeleteEntryByID, hwf, Remove, hb, hany]
  · intro hno
    have hany : (s.docs.any fun d => d.ID == ObjectIdHex id) = false := by
      rw [List.any_eq_false]
      intro d hd
      simpa using hno d hd
    simp [DeleteEntryByID, hwf, Remove, hb, hany]

/-- C9: for a request that carries a form file in field `file`: when the declared
`Content-Type` of the part is not exactly `text/csv`, `HandlePostCSV` answers 400 with the
message of `ErrInvalidFileType`, makes no service call and leaves the service state as it
was, whatever the file holds; when it is `text/csv` and `CSVToEntries`, called on the
temporary copy, returns no error, the answer is 202 with an empty body. -/
theorem HandlePostCSV_content_type {σ : Type} (h : ContactService σ) (lib : Lib) (r : Request)
    (ps : Params) (header : List (String × String)) (svc : σ) (part : FormFile)
    (hform : r.FormFile = .ok part) :
    (part.contentType ≠ "text/csv" →
      (HandlePostCSV h lib r ps (World.start header svc)).w.status = some 400 ∧
      (HandlePostCSV h lib r ps (World.start header svc)).w.body =
        [.errorResponse "Invalid file type"] ∧
      (HandlePostCSV h lib r ps (World.start header svc)).calls = [] ∧
      (HandlePostCSV h lib r ps (World.start header svc)).svc = svc) ∧
    (part.contentType = "text/csv" → ∀ tmpFile : File, lib.TempFile = .ok tmpFile →
      (h.CSVToEntries { tmpFile with contents := lib.Copy part.contents } svc).1.2 = none →
      (HandlePostCSV h lib r ps (World.start header svc)).w.status = some 202 ∧
      (HandlePostCSV h lib r ps (World.start header svc)).w.body = [] ∧
      (HandlePostCSV h lib r ps (World.start header svc)).calls =
        [.CSVToEntries { tmpFile with contents := lib.Copy part.contents }]) := by
  refine ⟨?_, ?_⟩
  · intro hne
    simp [HandlePostCSV, hform, hne, Error, World.start, ResponseWriter.fresh,
      ResponseWriter.WriteHeader, ResponseWriter.Write, StatusBadRequest, GoError.Error]
  · intro hcsv tmpFile htmp hok
    rcases hcall : h.CSVToEntries { tmpFile with contents := lib.Copy part.contents } svc
      with ⟨⟨res, err⟩, svc1⟩
    rw [hcall] at hok
    simp only at hok
    subst hok
    simp [HandlePostCSV, hform, hcsv, htmp, hcall, World.start, ResponseWriter.fresh,
      ResponseWriter.WriteHeader, StatusAccepted]

/-- What `HandlePutEntry` answers, for a body that decodes to `entry`: 400 with the
validation message and no service call when `Validate` fails; 400 with `ErrNoID` and no
service call when the entry is valid and its id is empty; 202 with an empty body when
`UpdateEntry` returns no error; and when `UpdateEntry` returns an error, status 500 with
the error body, after which the handler still calls `WriteHeader(202)`. -/
theorem HandlePutEntry_responses {σ : Type} (h : ContactService σ) (r : Request) (ps : Params)
    (header : List (String × String)) (svc : σ) (entry : Entry)
    (hbody : r.Body = .ok entry) :
    (∀ err, entry.Validate = some err →
      (HandlePutEntry h r ps (World.start header svc)).w.status = some 400 ∧
      (HandlePutEntry h r ps (World.start header svc)).w.body = [.errorResponse err.Error] ∧
      (HandlePutEntry h r ps (World.start header svc)).calls = []) ∧
    (entry.Validate = none → entry.ID = "" →
      (HandlePutEntry h r ps (World.start header svc)).w.status = some 400 ∧
      (HandlePutEntry h r ps (World.start header svc)).w.body =
        [.errorResponse "Missing field: _id"] ∧
      (HandlePutEntry h r ps (World.start header svc)).calls = []) ∧
    (entry.Validate = none → entry.ID ≠ "" → (h.UpdateEntry entry svc).1 = none →
      (HandlePutEntry h r ps (World.start header svc)).w.status = some 202 ∧
      (HandlePutEntry h r ps (World.start header svc)).w.body = [] ∧
      (HandlePutEntry h r ps (World.start header svc)).w.writeHeaderCalls = [202]) ∧
    (∀ err, entry.Validate = none → entry.ID ≠ "" → (h.UpdateEntry entry svc).1 = some err →
      (HandlePutEntry h r ps (World.start header svc)).w.status = some 500 ∧
      (HandlePutEntry h r ps (World.start header svc)).w.body = [.errorResponse err.Error] ∧
      (HandlePutEntry h r ps (World.start header svc)).w.writeHeaderCalls = [500, 202]) := by
  refine ⟨?_, ?_, ?_, ?_⟩
  · intro err hv
    simp [HandlePutEntry, decodeAndValidate, hbody, hv, Error, World.start,
      ResponseWriter.fresh, ResponseWriter.WriteHeader, ResponseWriter.Write, StatusBadRequest]
  · intro hv hid
    simp [HandlePutEntry, decodeAndValidate, hbody, hv, hid, Error, World.start,
      ResponseWriter.fresh, ResponseWriter.WriteHeader, ResponseWriter.Write, StatusBadRequest,
      GoError.Error]
  · intro hv hid hok
    rcases hcall : h.UpdateEntry entry svc with ⟨err, svc1⟩
    rw [hcall] at hok
    simp only at hok
    subst hok
    simp [HandlePutEntry, decodeAndValidate, hbody, hv, hid, hcall, World.start,
      ResponseWriter.fresh, ResponseWriter.WriteHeader, StatusAccepted]
  · intro err hv hid herr
    rcases hcall : h.UpdateEntry entry svc with ⟨err1, svc1⟩
    rw [hcall] at herr
    simp only at herr
    subst herr
    simp [HandlePutEntry, decodeAndValidate, hbody, hv, hid, hcall, Error, World.start,
      ResponseWriter.fresh, ResponseWriter.WriteHeader, ResponseWriter.Write, StatusAccepted,
      StatusInternalServerError]

/-! ### The middleware (`middleware/middleware.go`) -/

theorem Add_eq_foldl {σ : Type} (ms : List (Handle σ → Handle σ)) :
    ∀ h : Handle σ, Add h ms = ms.foldl (fun acc mw => mw acc) h := by
  induction ms with
  | nil =>
    intro h
    rfl
  | cons m rest ih =>
    intro h
    rw [Add, ih, List.foldl_cons]

theorem Add_append {σ : Type} (ms ns : List (Handle σ → Handle σ)) :
    ∀ h : Handle σ, Add h (ms ++ ns) = Add (Add h ms) ns := by
  induction ms with
  | nil =>
    intro h
    rfl
  | cons m rest ih =>
    intro h
    rw [List.cons_append, Add, ih, Add]

/-- C11: `Add(h, m1, ..., mn)` is the left fold `mn(...(m2(m1(h)))...)` of the middlewares
in argument order, so the last one listed is outermost; `Add(h) = h` and
`Add(h, ms ++ ns) = Add(Add(h, ms), ns)`.  `SetHeaders(h)`, when invoked, sets the
`Content-Type` header of the response to `application/json`, leaves the rest of the
writer as it was, and is then one call of `h` with that writer and the same request and
parameters: a handler that logs a line when called has logged it exactly once. -/
theorem Add_left_fold_and_SetHeaders {σ : Type} (h : Handle σ)
    (ms ns : List (Handle σ → Handle σ)) (m : Handle σ → Handle σ)
    (r : Request) (ps : Params) (x : World σ) :
    Add h ms = ms.foldl (fun acc mw => mw acc) h ∧
    Add h [] = h ∧
    Add h (ms ++ [m]) = m (Add h ms) ∧
    Add h (ms ++ ns) = Add (Add h ms) ns ∧
    SetHeaders h r ps x =
      h r ps { x with w := x.w.SetHeader "Content-Type" "application/json" } ∧
    (x.w.SetHeader "Content-Type" "application/json").GetHeader "Content-Type" =
      "application/json" ∧
    (x.w.SetHeader "Content-Type" "application/json").status = x.w.status ∧
    (x.w.SetHeader "Content-Type" "application/json").body = x.w.body ∧
    (x.w.SetHeader "Content-Type" "application/json").writeHeaderCalls =
      x.w.writeHeaderCalls ∧
    (∀ line : String,
      (SetHeaders (fun _ _ y => { y with log := y.log ++ [line] }) r ps x).log =
        x.log ++ [line]) := by
  refine ⟨Add_eq_foldl ms h, rfl, ?_, Add_append ms ns h, rfl, ?_, rfl, rfl, rfl, ?_⟩
  · rw [Add_append]
    rfl
  · simp [ResponseWriter.GetHeader, ResponseWriter.SetHeader]
  · intro line
    rfl

/-! ## Theorems for every lower-casing -/

section Parametric

variable [Unicode]

/-! ### Basic facts about the library functions -/

theorem ToLower_eq_empty (s : String) : ToLower s = "" ↔ s = "" := by
  cases s with
  | mk l => cases l <;> simp [ToLower, String.ext_iff]

/-! ### Facts about the collection -/

theorem Validate_lower {e : Entry} (h : e.Validate = none) (id : ObjectId) :
    ({ e with ID := id, Email := ToLower e.Email } : Entry).Validate = none := by
  have hv := Validate_eq_none_iff.mp h
  have hl : ToLower e.Email ≠ "" := fun hl => hv.2.2.1 ((ToLower_eq_empty _).mp hl)
  simp [Entry.Validate, hv.1, hv.2.1, hv.2.2.2, hl]

/-! ### Adding the same email twice -/

/-- What `AddEntry` does when it returns no error: the uniqueness check passed and the
entry, with its email lower-cased, was appended under an id of twelve bytes that no
document had. -/
theorem AddEntry_ok {s : MongoService} {A : Entry} (h : (AddEntry s A).1.err = none) :
    checkIfEmailExists s { A with Email := ToLower A.Email } = none ∧
    ∃ id : ObjectId, id.length = 12 ∧ (A.ID ≠ "" → id = A.ID) ∧
      (AddEntry s A).2.docs = s.docs ++ [{ A with ID := id, Email := ToLower A.Email }] ∧
      ∀ d ∈ s.docs, d.ID ≠ id := by
  unfold AddEntry at h ⊢
  cases hc : checkIfEmailExists s { A with Email := ToLower A.Email } with
  | some r => simp [hc] at h
  | none =>
    refine ⟨rfl, ?_⟩
    simp only [hc] at h ⊢
    rcases hi : Insert s { A with Email := ToLower A.Email } with ⟨ierr, s1⟩
    cases ierr with
    | some err => simp [hi] at h
    | none =>
      obtain ⟨id, hlen, hid, _, hdocs, hfresh⟩ := Insert_ok hi
      refine ⟨id, hlen, hid, ?_, hfresh⟩
      simp only [hi]
      cases hf : FindOne s1 (fun d => d.Email == ToLower A.Email) with
      | ok newEntry => simpa using hdocs
      | error err => simpa using hdocs

theorem find_none_of_AddEntry_ok {s : MongoService} {A : Entry}
    (hid : ∀ d ∈ s.docs, d.ID ≠ "")
    (hclean : ∀ d ∈ s.docs, d.Email = ToLower A.Email → d.Validate = none)
    (hadd : (AddEntry s A).1.err = none) :
    s.docs.find? (fun d => d.Email == ToLower A.Email) = none := by
  obtain ⟨hc, id, _, hidA, _, hfresh⟩ := AddEntry_ok hadd
  cases hf : s.docs.find? (fun d => d.Email == ToLower A.Email) with
  | none => rfl
  | some d0 =>
    exfalso
    have hmem : d0 ∈ s.docs := List.mem_of_find?_eq_some hf
    have hmail : d0.Email = ToLower A.Email := by
      have := List.find?_some hf
      simpa using this
    have hvalid := hclean d0 hmem hmail
    have hc2 := @checkIfEmailExists_of_find_some s { A with Email := ToLower A.Email } d0 hf
    rw [hc] at hc2
    have hsame : d0.ID = A.ID := by
      by_contra hne
      simp [hvalid, hne] at hc2
    have hAne : A.ID ≠ "" := fun h0 => hid d0 hmem (hsame.trans h0)
    exact hfresh d0 hmem (hsame.trans (hidA hAne).symm)

/-! ### The CSV import loop -/

theorem UpdateEntry_fst (s : MongoService) (e : Entry) :
    (UpdateEntry s e).1.1 = lowerEmail e := by
  unfold UpdateEntry
  simp only
  split <;> rfl

theorem AddEntry_entry (s : MongoService) (e : Entry) :
    (AddEntry s e).1.entry = lowerEmail e := by
  unfold AddEntry
  simp only
  split
  · rfl
  · split
    · rfl
    · split <;> rfl

theorem applyRow_fst (s : MongoService) (e : Entry) : (applyRow s e).1.1 = lowerEmail e := by
  unfold applyRow
  split
  · exact UpdateEntry_fst s e
  · exact AddEntry_entry s e

/-- One turn of the loop, in terms of `applyRow`. -/
theorem csvLoop_cons (e : Entry) (rest failed : List Entry) (err : Option GoError)
    (s : MongoService) :
    csvLoop (e :: rest) failed err s =
      match (applyRow s e).1.2 with
      | some .ErrEmailExists =>
        csvLoop rest (failed ++ [lowerEmail e]) (some .ErrEmailExists) (applyRow s e).2
      | some x => ((failed, some x), (applyRow s e).2)
      | none => csvLoop rest failed none (applyRow s e).2 := by
  by_cases hid : e.ID ≠ ""
  · have ha : applyRow s e = UpdateEntry s e := by
      unfold applyRow
      rw [if_pos hid]
    have hfst := UpdateEntry_fst s e
    rw [ha, csvLoop, if_pos hid]
    rcases hu : UpdateEntry s e with ⟨⟨e1, uerr⟩, s1⟩
    rw [hu] at hfst
    simp only at hfst
    subst hfst
    cases uerr with
    | none => rfl
    | some x => cases x <;> rfl
  · have ha : applyRow s e =
        (((AddEntry s e).1.entry, (AddEntry s e).1.err), (AddEntry s e).2) := by
      unfold applyRow
      rw [if_neg hid]
    have hfst := AddEntry_entry s e
    rw [ha, csvLoop, if_neg hid]
    rcases hadd : AddEntry s e with ⟨r, s1⟩
    rw [hadd] at hfst
    rcases r with ⟨e1, res, aerr⟩
    simp only at hfst
    subst hfst
    cases aerr with
    | none => rfl
    | some x => cases x <;> rfl

/-- An `UpdateEntry` that returns an error leaves the collection as it was. -/
theorem UpdateEntry_error {s : MongoService} {e : Entry} {err : GoError}
    (h : (UpdateEntry s e).1.2 = some err) : (UpdateEntry s e).2 = s := by
  unfold UpdateEntry at h ⊢
  simp only at h ⊢
  split
  · rfl
  · rename_i hc
    simp only [hc] at h
    rcases hu : Update s e.ID { e with Email := ToLower e.Email } with ⟨uerr, s1⟩
    rw [hu] at h
    simp only at h
    subst h
    exact (Update_error hu).1

/-- An `AddEntry` that returns an error writes no document. -/
theorem AddEntry_error {s : MongoService} {e : Entry} {err : GoError}
    (h : (AddEntry s e).1.err = some err) : (AddEntry s e).2.docs = s.docs := by
  unfold AddEntry at h ⊢
  simp only at h ⊢
  split
  · rfl
  · rename_i hc
    simp only [hc] at h
    rcases hi : Insert s { e with Email := ToLower e.Email } with ⟨ierr, s1⟩
    rw [hi] at h
    cases ierr with
    | some ie => exact Insert_error hi
    | none =>
      obtain ⟨d, hd⟩ := FindOne_after_Insert hi
      simp only at hd h
      rw [hd] at h
      simp at h

/-- An `AddEntry` that returns `ErrEmailExists` leaves the collection as it was. -/
theorem AddEntry_EmailExists {s : MongoService} {e : Entry}
    (h : (AddEntry s e).1.err = some .ErrEmailExists) : (AddEntry s e).2 = s := by
  unfold AddEntry at h ⊢
  simp only at h ⊢
  split
  · rfl
  · rename_i hc
    simp only [hc] at h
    rcases hi : Insert s { e with Email := ToLower e.Email } with ⟨ierr, s1⟩
    rw [hi] at h
    cases ierr with
    | some ie =>
      simp only [Option.some.injEq] at h
      exact absurd h (Insert_error_ne hi)
    | none =>
      obtain ⟨d, hd⟩ := FindOne_after_Insert hi
      simp only at hd h
      rw [hd] at h
      simp at h

theorem applyRow_EmailExists {s : MongoService} {e : Entry}
    (h : (applyRow s e).1.2 = some .ErrEmailExists) : (applyRow s e).2 = s := by
  unfold applyRow at h ⊢
  split
  · rename_i hid
    rw [if_pos hid] at h
    exact UpdateEntry_error h
  · rename_i hid
    rw [if_neg hid] at h
    exact AddEntry_EmailExists h

theorem applyRow_error {s : MongoService} {e : Entry} {err : GoError}
    (h : (applyRow s e).1.2 = some err) : (applyRow s e).2.docs = s.docs := by
  unfold applyRow at h ⊢
  split
  · rename_i hid
    rw [if_pos hid] at h
    rw [UpdateEntry_error h]
  · rename_i hid
    rw [if_neg hid] at h
    exact AddEntry_error h

theorem applyRows_cons (s : MongoService) (e : Entry) (es : List Entry) :
    applyRows s (e :: es) = applyRows (applyRow s e).2 es := rfl

theorem collidedRows_cons_none {s : MongoService} {e : Entry} (es : List Entry)
    (h : (applyRow s e).1.2 = none) :
    collidedRows s (e :: es) = collidedRows (applyRow s e).2 es := by
  simp [collidedRows, rowTrace, h]

theorem collidedRows_cons_exists {s : MongoService} {e : Entry} (es : List Entry)
    (h : (applyRow s e).1.2 = some .ErrEmailExists) :
    collidedRows s (e :: es) = e :: collidedRows (applyRow s e).2 es := by
  simp [collidedRows, rowTrace, h]

theorem appliedRows_cons_none {s : MongoService} {e : Entry} (es : List Entry)
    (h : (applyRow s e).1.2 = none) :
    appliedRows s (e :: es) = e :: appliedRows (applyRow s e).2 es := by
  simp [appliedRows, rowTrace, h]

theorem appliedRows_cons_exists {s : MongoService} {e : Entry} (es : List Entry)
    (h : (applyRow s e).1.2 = some .ErrEmailExists) :
    appliedRows s (e :: es) = appliedRows (applyRow s e).2 es := by
  simp [appliedRows, rowTrace, h]

/-- The loop over rows that each return nil or `ErrEmailExists`. -/
theorem csvLoop_all (rows : List Entry) :
    ∀ (failed : List Entry) (err : Option GoError) (s : MongoService),
      (∀ o ∈ rowTrace s rows, o.2 = none ∨ o.2 = some .ErrEmailExists) →
      (err = none ∨ (err = some .ErrEmailExists ∧ failed ≠ [])) →
      csvLoop rows failed err s =
        ((failed ++ (collidedRows s rows).map lowerEmail,
          if 0 < (failed ++ (collidedRows s rows).map lowerEmail).length
            then some .ErrEmailExists else none),
         applyRows s rows) := by
  induction rows with
  | nil =>
    intro failed err s _ herr
    rcases herr with h0 | ⟨h1, h2⟩
    · subst h0
      simp [csvLoop, collidedRows, rowTrace, applyRows]
    · subst h1
      have hpos : 0 < failed.length := List.length_pos.mpr h2
      simp [csvLoop, collidedRows, rowTrace, applyRows, hpos]
  | cons e es ih =>
    intro failed err s htrace _
    have hhead : (applyRow s e).1.2 = none ∨ (applyRow s e).1.2 = some .ErrEmailExists :=
      htrace (e, (applyRow s e).1.2) (by simp [rowTrace])
    have htail : ∀ o ∈ rowTrace (applyRow s e).2 es,
        o.2 = none ∨ o.2 = some .ErrEmailExists := by
      intro o ho
      exact htrace o (by simp [rowTrace, ho])
    rw [csvLoop_cons, applyRows_cons]
    rcases hhead with h0 | h1
    · rw [h0]
      simp only
      rw [ih failed none _ htail (Or.inl rfl), collidedRows_cons_none es h0]
    · rw [h1]
      simp only
      rw [ih (failed ++ [lowerEmail e]) (some .ErrEmailExists) _ htail
        (Or.inr ⟨rfl, by simp⟩), collidedRows_cons_exists es h1]
      simp

/-- Rows that returned `ErrEmailExists` left the collection alone: applying all rows is
applying the rows that returned no error. -/
theorem applyRows_eq_applied (rows : List Entry) :
    ∀ s : MongoService, (∀ o ∈ rowTrace s rows, o.2 = none ∨ o.2 = some .ErrEmailExists) →
      applyRows s rows = applyRows s (appliedRows s rows) ∧
      (appliedRows s rows).length + (collidedRows s rows).length = rows.length := by
  induction rows with
  | nil =>
    intro s _
    simp [appliedRows, collidedRows, rowTrace, applyRows]
  | cons e es ih =>
    intro s htrace
    have hhead : (applyRow s e).1.2 = none ∨ (applyRow s e).1.2 = some .ErrEmailExists :=
      htrace (e, (applyRow s e).1.2) (by simp [rowTrace])
    have htail : ∀ o ∈ rowTrace (applyRow s e).2 es,
        o.2 = none ∨ o.2 = some .ErrEmailExists := by
      intro o ho
      exact htrace o (by simp [rowTrace, ho])
    obtain ⟨ih1, ih2⟩ := ih _ htail
    rcases hhead with h0 | h1
    · rw [appliedRows_cons_none es h0, collidedRows_cons_none es h0, applyRows_cons,
        applyRows_cons]
      refine ⟨ih1, ?_⟩
      simp only [List.length_cons]
      omega
    · rw [appliedRows_cons_exists es h1, collidedRows_cons_exists es h1, applyRows_cons]
      refine ⟨?_, ?_⟩
      · rw [ih1]
        rw [applyRow_EmailExists h1]
      · simp only [List.length_cons]
        omega

/-- The loop up to the first row that returns an error other than `ErrEmailExists`. -/
theorem csvLoop_abort (pre : List Entry) (r : Entry) (post : List Entry) (x : GoError) :
    ∀ (failed : List Entry) (err : Option GoError) (s : MongoService),
      (∀ o ∈ rowTrace s pre, o.2 = none ∨ o.2 = some .ErrEmailExists) →
      (applyRow (applyRows s pre) r).1.2 = some x → x ≠ .ErrEmailExists →
      csvLoop (pre ++ r :: post) failed err s =
        ((failed ++ (collidedRows s pre).map lowerEmail, some x),
         (applyRow (applyRows s pre) r).2) := by
  induction pre with
  | nil =>
    intro failed err s _ hr hx
    simp only [applyRows, List.foldl_nil] at hr ⊢
    rw [List.nil_append, csvLoop_cons, hr]
    cases x <;> simp [collidedRows, rowTrace] at hx ⊢
  | cons e es ih =>
    intro failed err s htrace hr hx
    have hhead : (applyRow s e).1.2 = none ∨ (applyRow s e).1.2 = some .ErrEmailExists :=
      htrace (e, (applyRow s e).1.2) (by simp [rowTrace])
    have htail : ∀ o ∈ rowTrace (applyRow s e).2 es,
        o.2 = none ∨ o.2 = some .ErrEmailExists := by
      intro o ho
      exact htrace o (by simp [rowTrace, ho])
    rw [applyRows_cons] at hr ⊢
    rw [List.cons_append, csvLoop_cons]
    rcases hhead with h0 | h1
    · rw [h0]
      simp only
      rw [ih failed none _ htail hr hx, collidedRows_cons_none es h0]
    · rw [h1]
      simp only
      rw [ih (failed ++ [lowerEmail e]) (some .ErrEmailExists) _ htail hr hx,
        collidedRows_cons_exists es h1]
      simp

/-- C3: for a CSV file that opens and parses into `rows`, when every row's call returns
nil or `ErrEmailExists`: the failed list is exactly the rows that returned
`ErrEmailExists`, in file order (each as it stands after its call, that is with its
email lower-cased); the returned error is `ErrEmailExists` when there is such a row and
nil when there is none; the collection is the one obtained by applying the remaining
rows in order; these remaining rows number `N - K`; and applying a row is `AddEntry`
when its id is empty and `UpdateEntry` when it is not. -/
theorem CSVToEntries_collisions (lib : Lib) (s : MongoService) (file entryFile : File)
    (rows : List Entry)
    (hopen : lib.Open file = .ok entryFile)
    (hparse : lib.UnmarshalFile entryFile = .ok rows)
    (hrows : ∀ o ∈ rowTrace s rows, o.2 = none ∨ o.2 = some .ErrEmailExists) :
    (CSVToEntries lib s file).1.1 = (collidedRows s rows).map lowerEmail ∧
    (CSVToEntries lib s file).1.2 =
      (if 0 < (collidedRows s rows).length then some .ErrEmailExists else none) ∧
    (CSVToEntries lib s file).2 = applyRows s (appliedRows s rows) ∧
    (appliedRows s rows).length = rows.length - (collidedRows s rows).length ∧
    (∀ (st : MongoService) (e : Entry), e.ID = "" → (applyRow st e).2 = (AddEntry st e).2) ∧
    (∀ (st : MongoService) (e : Entry), e.ID ≠ "" →
      (applyRow st e).2 = (UpdateEntry st e).2) := by
  have hloop := csvLoop_all rows [] none s hrows (Or.inl rfl)
  obtain ⟨happ, hcount⟩ := applyRows_eq_applied rows s hrows
  have hc : CSVToEntries lib s file = csvLoop rows [] none s := by
    simp [CSVToEntries, hopen, hparse]
  rw [hc, hloop]
  refine ⟨by simp, by simp, happ, by omega, ?_, ?_⟩
  · intro st e he
    simp [applyRow, he]
  · intro st e he
    simp [applyRow, he]

/-- C4: for a CSV file that opens and parses into `pre ++ r :: post`, when every row of
`pre` returns nil or `ErrEmailExists` and the call for `r` returns an error `x` other
than `ErrEmailExists`: `CSVToEntries` returns `x` with the failed list holding exactly
the rows of `pre` that returned `ErrEmailExists`; the collection is the one the call for
`r` left, whatever `post` is, and its documents are those obtained by applying the rows
of `pre` that returned no error. -/
theorem CSVToEntries_abort (lib : Lib) (s : MongoService) (file entryFile : File)
    (pre : List Entry) (r : Entry) (post : List Entry) (x : GoError)
    (hopen : lib.Open file = .ok entryFile)
    (hparse : lib.UnmarshalFile entryFile = .ok (pre ++ r :: post))
    (hpre : ∀ o ∈ rowTrace s pre, o.2 = none ∨ o.2 = some .ErrEmailExists)
    (hr : (applyRow (applyRows s pre) r).1.2 = some x)
    (hx : x ≠ .ErrEmailExists) :
    (CSVToEntries lib s file).1 = ((collidedRows s pre).map lowerEmail, some x) ∧
    (CSVToEntries lib s file).2 = (applyRow (applyRows s pre) r).2 ∧
    (CSVToEntries lib s file).2.docs = (applyRows s (appliedRows s pre)).docs := by
  have hloop := csvLoop_abort pre r post x [] none s hpre hr hx
  have hc : CSVToEntries lib s file = csvLoop (pre ++ r :: post) [] none s := by
    simp [CSVToEntries, hopen, hparse]
  rw [hc, hloop]
  refine ⟨by simp, rfl, ?_⟩
  simp only
  rw [applyRow_error hr, (applyRows_eq_applied pre s hpre).1]

/-! ### Email uniqueness -/

theorem AddEntry_StoreInv {s : MongoService} {A : Entry} (hs : StoreInv s)
    (hA : A.Validate = none) : StoreInv (AddEntry s A).2 := by
  cases herr : (AddEntry s A).1.err with
  | some err => exact StoreInv_of_docs_eq (AddEntry_error herr) hs
  | none =>
    have hnone := find_none_of_AddEntry_ok hs.1 (fun d hd _ => hs.2.1 d hd) herr
    obtain ⟨_, id, hlen, _, hdocs, _⟩ := AddEntry_ok herr
    have hno : ∀ d ∈ s.docs, d.Email ≠ ToLower A.Email := by
      intro d hd hmail
      have := List.find?_eq_none.mp hnone d hd
      simp [hmail] at this
    unfold StoreInv EmailUnique
    rw [hdocs]
    refine ⟨?_, ?_, ?_⟩
    · intro d hd
      rcases List.mem_append.mp hd with h1 | h2
      · exact hs.1 d h1
      · rw [List.mem_singleton.mp h2]
        exact ne_empty_of_length hlen
    · intro d hd
      rcases List.mem_append.mp hd with h1 | h2
      · exact hs.2.1 d h1
      · rw [List.mem_singleton.mp h2]
        exact Validate_lower hA id
    · intro a ha b hb hab
      rcases List.mem_append.mp ha with ha1 | ha2 <;>
        rcases List.mem_append.mp hb with hb1 | hb2
      · exact hs.2.2 a ha1 b hb1 hab
      · rw [List.mem_singleton.mp hb2] at hab
        exact absurd hab (hno a ha1)
      · rw [List.mem_singleton.mp ha2] at hab
        exact absurd hab.symm (hno b hb1)
      · rw [List.mem_singleton.mp ha2, List.mem_singleton.mp hb2]

theorem UpdateEntry_StoreInv {s : MongoService} {U : Entry} (hs : StoreInv s)
    (hU : U.Validate = none) : StoreInv (UpdateEntry s U).2 := by
  cases herr : (UpdateEntry s U).1.2 with
  | some err =>
    rw [UpdateEntry_error herr]
    exact hs
  | none =>
    unfold UpdateEntry at herr ⊢
    simp only at herr ⊢
    cases hc : checkIfEmailExists s { U with Email := ToLower U.Email } with
    | some r => simp [hc] at herr
    | none =>
      simp only [hc] at herr ⊢
      unfold Update at herr ⊢
      cases hb : bsonIdError U.ID with
      | some e0 => simp [hb] at herr
      | none =>
        simp only [hb] at herr ⊢
        have hlen := bsonIdError_none hb
        split
        · exact hs
        · split
          · simp only
            unfold StoreInv EmailUnique
            simp only
            refine ⟨?_, ?_, ?_⟩
            · intro d hd
              rcases mem_replaceFirst hd with h1 | h2
              · rw [h1]
                exact ne_empty_of_length hlen
              · exact hs.1 d h2
            · intro d hd
              rcases mem_replaceFirst hd with h1 | h2
              · rw [h1]
                exact Validate_lower hU U.ID
              · exact hs.2.1 d h2
            · intro a ha b hb hab
              rcases mem_replaceFirst ha with ha1 | ha2 <;>
                rcases mem_replaceFirst hb with hb1 | hb2
              · rw [ha1, hb1]
              · rw [ha1] at hab ⊢
                exact (id_eq_of_check_none hs hc hb2 hab.symm).symm
              · rw [hb1] at hab ⊢
                exact id_eq_of_check_none hs hc ha2 hab
              · exact hs.2.2 a ha2 b hb2 hab
          · exact hs

theorem applyRow_StoreInv {s : MongoService} {e : Entry} (hs : StoreInv s)
    (he : e.Validate = none) : StoreInv (applyRow s e).2 := by
  unfold applyRow
  split
  · exact UpdateEntry_StoreInv hs he
  · exact AddEntry_StoreInv hs he

theorem csvLoop_StoreInv (rows : List Entry) :
    ∀ (failed : List Entry) (err : Option GoError) (s : MongoService),
      StoreInv s → (∀ e ∈ rows, e.Validate = none) →
      StoreInv (csvLoop rows failed err s).2 := by
  induction rows with
  | nil =>
    intro failed err s hs _
    simpa [csvLoop] using hs
  | cons e es ih =>
    intro failed err s hs hrows
    have hstep := applyRow_StoreInv hs (hrows e (List.mem_cons_self _ _))
    have htail : ∀ x ∈ es, x.Validate = none := fun x hx => hrows x (List.mem_cons_of_mem _ hx)
    rw [csvLoop_cons]
    split
    · exact ih _ _ _ hstep htail
    · exact hstep
    · exact ih _ _ _ hstep htail

theorem Op_run_StoreInv (lib : Lib) {s : MongoService} {op : Op} (hs : StoreInv s)
    (hop : op.EntriesValid lib) : StoreInv (op.run lib s) := by
  cases op with
  | AddEntry entry => exact AddEntry_StoreInv hs hop
  | UpdateEntry entry => exact UpdateEntry_StoreInv hs hop
  | DeleteEntryByID id => exact DeleteEntryByID_StoreInv id hs
  | CSVToEntries file =>
    simp only [Op.run, CSVToEntries]
    cases ho : lib.Open file with
    | error err => exact hs
    | ok entryFile =>
      simp only
      cases hp : lib.UnmarshalFile entryFile with
      | error err => exact hs
      | ok rows => exact csvLoop_StoreInv rows [] none s hs (hop entryFile rows ho hp)

theorem runOps_StoreInv (lib : Lib) (ops : List Op) :
    ∀ s : MongoService, StoreInv s → (∀ op ∈ ops, op.EntriesValid lib) →
      StoreInv (runOps lib s ops) := by
  induction ops with
  | nil =>
    intro s hs _
    exact hs
  | cons op rest ih =>
    intro s hs hops
    exact ih _ (Op_run_StoreInv lib hs (hops op (List.mem_cons_self _ _)))
      (fun o ho => hops o (List.mem_cons_of_mem _ ho))

/-- C5 (amended): starting from a collection in which every record carries an id and
passes `Validate` and no two records share an email, after any sequence of `AddEntry`,
`UpdateEntry`, `DeleteEntryByID` and `CSVToEntries` calls whose entries all pass
`Validate`, no two records with different ids have the same email. -/
theorem email_unique_invariant (lib : Lib) (s : MongoService) (ops : List Op)
    (hid : ∀ d ∈ s.docs, d.ID ≠ "")
    (hvalid : ∀ d ∈ s.docs, d.Validate = none)
    (hinit : NoSharedEmail s)
    (hops : ∀ op ∈ ops, op.EntriesValid lib) :
    EmailUnique (runOps lib s ops) :=
  (runOps_StoreInv lib ops s ⟨hid, hvalid, EmailUnique_of_NoSharedEmail hinit⟩ hops).2.2

/-! ### A later call with the same email -/

theorem AddEntry_EmailInv {email : String} {s : MongoService} {X : Entry}
    (hs : EmailInv email s) (hX : X.Validate = none) : EmailInv email (AddEntry s X).2 := by
  cases herr : (AddEntry s X).1.err with
  | some err => exact EmailInv_of_docs_eq (AddEntry_error herr) hs
  | none =>
    obtain ⟨hc, id, hlen, hidX, hdocs, hfresh⟩ := AddEntry_ok herr
    have hno : ToLower X.Email = email → ∀ b ∈ s.docs, b.Email ≠ email := by
      intro hX1 b hb hmail
      have hbid : b.ID = X.ID :=
        id_eq_of_check_none_email { X with Email := ToLower X.Email } hs hc hX1 hb hmail
      have hXne : X.ID ≠ "" := fun h0 => hs.1 b hb (hbid.trans h0)
      exact hfresh b hb (hbid.trans (hidX hXne).symm)
    unfold EmailInv
    rw [hdocs]
    refine ⟨?_, ?_, ?_⟩
    · intro d hd
      rcases List.mem_append.mp hd with h1 | h2
      · exact hs.1 d h1
      · rw [List.mem_singleton.mp h2]
        exact ne_empty_of_length hlen
    · intro d hd hmail
      rcases List.mem_append.mp hd with h1 | h2
      · exact hs.2.1 d h1 hmail
      · rw [List.mem_singleton.mp h2]
        exact Validate_lower hX id
    · intro a ha b hb hae hbe
      rcases List.mem_append.mp ha with ha1 | ha2 <;>
        rcases List.mem_append.mp hb with hb1 | hb2
      · exact hs.2.2 a ha1 b hb1 hae hbe
      · rw [List.mem_singleton.mp hb2] at hbe
        exact absurd hae (hno hbe a ha1)
      · rw [List.mem_singleton.mp ha2] at hae
        exact absurd hbe (hno hae b hb1)
      · rw [List.mem_singleton.mp ha2, List.mem_singleton.mp hb2]

theorem UpdateEntry_EmailInv {email : String} {s : MongoService} {U : Entry}
    (hs : EmailInv email s) (hU : U.Validate = none) :
    EmailInv email (UpdateEntry s U).2 := by
  cases herr : (UpdateEntry s U).1.2 with
  | some err =>
    rw [UpdateEntry_error herr]
    exact hs
  | none =>
    unfold UpdateEntry at herr ⊢
    simp only at herr ⊢
    cases hc : checkIfEmailExists s { U with Email := ToLower U.Email } with
    | some r => simp [hc] at herr
    | none =>
      simp only [hc] at herr ⊢
      unfold Update at herr ⊢
      cases hb : bsonIdError U.ID with
      | some e0 => simp [hb] at herr
      | none =>
        simp only [hb] at herr ⊢
        have hlen := bsonIdError_none hb
        have hold : ToLower U.Email = email → ∀ b ∈ s.docs, b.Email = email → b.ID = U.ID := by
          intro hU1 b hbm hmail
          exact id_eq_of_check_none_email { U with Email := ToLower U.Email } hs hc hU1 hbm
            hmail
        split
        · exact hs
        · split
          · simp only
            unfold EmailInv
            simp only
            refine ⟨?_, ?_, ?_⟩
            · intro d hd
              rcases mem_replaceFirst hd with h1 | h2
              · rw [h1]
                exact ne_empty_of_length hlen
              · exact hs.1 d h2
            · intro d hd hmail
              rcases mem_replaceFirst hd with h1 | h2
              · rw [h1]
                exact Validate_lower hU U.ID
              · exact hs.2.1 d h2 hmail
            · intro a ha b hbm hae hbe
              rcases mem_replaceFirst ha with ha1 | ha2 <;>
                rcases mem_replaceFirst hbm with hb1 | hb2
              · rw [ha1, hb1]
              · rw [ha1] at hae ⊢
                exact (hold hae b hb2 hbe).symm
              · rw [hb1] at hbe ⊢
                exact hold hbe a ha2 hae
              · exact hs.2.2 a ha2 b hb2 hae hbe
          · exact hs

theorem applyRow_EmailInv {email : String} {s : MongoService} {e : Entry}
    (hs : EmailInv email s) (he : e.Validate = none) : EmailInv email (applyRow s e).2 := by
  unfold applyRow
  split
  · exact UpdateEntry_EmailInv hs he
  · exact AddEntry_EmailInv hs he

theorem csvLoop_EmailInv (email : String) (rows : List Entry) :
    ∀ (failed : List Entry) (err : Option GoError) (s : MongoService),
      EmailInv email s → (∀ e ∈ rows, e.Validate = none) →
      EmailInv email (csvLoop rows failed err s).2 := by
  induction rows with
  | nil =>
    intro failed err s hs _
    simpa [csvLoop] using hs
  | cons e es ih =>
    intro failed err s hs hrows
    have hstep := applyRow_EmailInv hs (hrows e (List.mem_cons_self _ _))
    have htail : ∀ x ∈ es, x.Validate = none := fun x hx => hrows x (List.mem_cons_of_mem _ hx)
    rw [csvLoop_cons]
    split
    · exact ih _ _ _ hstep htail
    · exact hstep
    · exact ih _ _ _ hstep htail

theorem Op_run_EmailInv (email : String) (lib : Lib) {s : MongoService} {op : Op}
    (hs : EmailInv email s) (hop : op.EntriesValid lib) : EmailInv email (op.run lib s) := by
  cases op with
  | AddEntry entry => exact AddEntry_EmailInv hs hop
  | UpdateEntry entry => exact UpdateEntry_EmailInv hs hop
  | DeleteEntryByID id => exact DeleteEntryByID_EmailInv id hs
  | CSVToEntries file =>
    simp only [Op.run, CSVToEntries]
    cases ho : lib.Open file with
    | error err => exact hs
    | ok entryFile =>
      simp only
      cases hp : lib.UnmarshalFile entryFile with
      | error err => exact hs
      | ok rows => exact csvLoop_EmailInv email rows [] none s hs (hop entryFile rows ho hp)

theorem runOps_EmailInv (email : String) (lib : Lib) (ops : List Op) :
    ∀ s : MongoService, EmailInv email s → (∀ op ∈ ops, op.EntriesValid lib) →
      EmailInv email (runOps lib s ops) := by
  induction ops with
  | nil =>
    intro s hs _
    exact hs
  | cons op rest ih =>
    intro s hs hops
    exact ih _ (Op_run_EmailInv email lib hs (hops op (List.mem_cons_self _ _)))
      (fun o ho => hops o (List.mem_cons_of_mem _ ho))

/-- After a successful `AddEntry` of a valid entry into a collection whose documents all
carry an id and in which no invalid record holds the entry's lower-cased email, the
collection keeps `EmailInv` for that email. -/
theorem EmailInv_after_AddEntry {s : MongoService} {A : Entry}
    (hid : ∀ d ∈ s.docs, d.ID ≠ "")
    (hclean : ∀ d ∈ s.docs, d.Email = ToLower A.Email → d.Validate = none)
    (hA : A.Validate = none)
    (hadd : (AddEntry s A).1.err = none) :
    EmailInv (ToLower A.Email) (AddEntry s A).2 := by
  have hnone := find_none_of_AddEntry_ok hid hclean hadd
  obtain ⟨_, id, hlen, _, hdocs, _⟩ := AddEntry_ok hadd
  have hno : ∀ d ∈ s.docs, d.Email ≠ ToLower A.Email := by
    intro d hd hmail
    have := List.find?_eq_none.mp hnone d hd
    simp [hmail] at this
  unfold EmailInv
  rw [hdocs]
  refine ⟨?_, ?_, ?_⟩
  · intro d hd
    rcases List.mem_append.mp hd with h1 | h2
    · exact hid d h1
    · rw [List.mem_singleton.mp h2]
      exact ne_empty_of_length hlen
  · intro d hd hmail
    rcases List.mem_append.mp hd with h1 | h2
    · exact absurd hmail (hno d h1)
    · rw [List.mem_singleton.mp h2]
      exact Validate_lower hA id
  · intro a ha b hb hae hbe
    rcases List.mem_append.mp ha with ha1 | ha2
    · exact absurd hae (hno a ha1)
    · rcases List.mem_append.mp hb with hb1 | hb2
      · exact absurd hbe (hno b hb1)
      · rw [List.mem_singleton.mp ha2, List.mem_singleton.mp hb2]

/-- In a collection that keeps `EmailInv` for an email and in which a record with the id
`id` holds that email: `AddEntry` of an entry with that email lower-cased and an id that
is empty or differs from `id` returns `ErrEmailExists` and changes nothing; `UpdateEntry`
of an entry with the id `id` and that email lower-cased passes the check and returns
nil. -/
theorem same_email_calls {email : String} {id : ObjectId} {t : MongoService} (B U : Entry)
    (ht : EmailInv email t) (hlen : id.length = 12)
    (hstill : ∃ d ∈ t.docs, d.ID = id ∧ d.Email = email) :
    (ToLower B.Email = email → (B.ID = "" ∨ B.ID ≠ id) →
      (AddEntry t B).1.err = some .ErrEmailExists ∧ (AddEntry t B).2 = t) ∧
    (U.ID = id → ToLower U.Email = email →
      checkIfEmailExists t { U with Email := ToLower U.Email } = none ∧
      (UpdateEntry t U).1.2 = none ∧
      (UpdateEntry t U).2.docs = replaceFirst id { U with Email := ToLower U.Email } t.docs) := by
  obtain ⟨d, hd, hdid, hdmail⟩ := hstill
  have hne : id ≠ "" := ne_empty_of_length hlen
  have hfind : ∃ d0, t.docs.find? (fun x => x.Email == email) = some d0 ∧
      d0.Validate = none ∧ d0.ID = id := by
    cases hf : t.docs.find? (fun x => x.Email == email) with
    | none =>
      exfalso
      have := List.find?_eq_none.mp hf d hd
      simp [hdmail] at this
    | some d0 =>
      have hmem : d0 ∈ t.docs := List.mem_of_find?_eq_some hf
      have hm0 : d0.Email = email := by
        have := List.find?_some hf
        simpa using this
      exact ⟨d0, rfl, ht.2.1 d0 hmem hm0, (ht.2.2 d0 hmem d hd hm0 hdmail).trans hdid⟩
  obtain ⟨d0, hf, hvalid, hid0⟩ := hfind
  refine ⟨?_, ?_⟩
  · intro hB hBid
    have hBid2 : d0.ID ≠ B.ID := by
      rw [hid0]
      rcases hBid with h0 | h1
      · rw [h0]; exact hne
      · exact fun h => h1 h.symm
    have hf2 : t.docs.find?
        (fun x => x.Email == ({ B with Email := ToLower B.Email } : Entry).Email) = some d0 := by
      simpa [hB] using hf
    have hc : checkIfEmailExists t { B with Email := ToLower B.Email } =
        some .ErrEmailExists := by
      rw [checkIfEmailExists_of_find_some hf2]
      simp [hvalid, hBid2]
    simp [AddEntry, hc]
  · intro hU hUm
    subst hU
    have hf2 : t.docs.find?
        (fun x => x.Email == ({ U with Email := ToLower U.Email } : Entry).Email) = some d0 := by
      simpa [hUm] using hf
    have hc : checkIfEmailExists t { U with Email := ToLower U.Email } = none := by
      rw [checkIfEmailExists_of_find_some hf2]
      simp [hid0]
    have hb : bsonIdError U.ID = none := by simp [bsonIdError, hlen]
    have hany : (t.docs.any fun x => x.ID == U.ID) = true := by
      simp only [List.any_eq_true, beq_iff_eq]
      exact ⟨d, hd, hdid⟩
    refine ⟨hc, ?_, ?_⟩
    · simp [UpdateEntry, hc, Update, hb, hany]
    · simp [UpdateEntry, hc, Update, hb, hany]

/-- C2 (amended): in a collection whose documents all carry an id and in which no record
failing `Validate` holds the lower-cased email of `A`, once a valid `A` has been added
successfully (stored as `A'`, the last document), and after any further sequence `ops` of
`AddEntry`, `UpdateEntry`, `DeleteEntryByID` and `CSVToEntries` calls on entries that
pass `Validate`, as long as a record with the id of `A'` still holds the email of `A'`:
`AddEntry` of any `B` whose lower-cased email is that of `A'` and whose id is empty or
differs from that of `A'` fails with `ErrEmailExists` and leaves the collection as it
was, while `UpdateEntry` of any `U` carrying the id of `A'` and the same email in any
letter case passes the uniqueness check, returns no error and replaces the record. -/
theorem AddEntry_then_same_email (lib : Lib) (s : MongoService) (A B U : Entry)
    (ops : List Op)
    (hid : ∀ d ∈ s.docs, d.ID ≠ "")
    (hclean : ∀ d ∈ s.docs, d.Email = ToLower A.Email → d.Validate = none)
    (hA : A.Validate = none)
    (hadd : (AddEntry s A).1.err = none)
    (hops : ∀ op ∈ ops, op.EntriesValid lib) :
    ∃ A' : Entry, (AddEntry s A).2.docs = s.docs ++ [A'] ∧
      A' = { A with ID := A'.ID, Email := ToLower A.Email } ∧ A'.ID ≠ "" ∧
      (A.ID ≠ "" → A'.ID = A.ID) ∧
      ((∃ d ∈ (runOps lib (AddEntry s A).2 ops).docs, d.ID = A'.ID ∧ d.Email = A'.Email) →
        (ToLower B.Email = A'.Email → (B.ID = "" ∨ B.ID ≠ A'.ID) →
          (AddEntry (runOps lib (AddEntry s A).2 ops) B).1.err = some .ErrEmailExists ∧
          (AddEntry (runOps lib (AddEntry s A).2 ops) B).2 =
            runOps lib (AddEntry s A).2 ops) ∧
        (U.ID = A'.ID → ToLower U.Email = A'.Email →
          checkIfEmailExists (runOps lib (AddEntry s A).2 ops)
            { U with Email := ToLower U.Email } = none ∧
          (UpdateEntry (runOps lib (AddEntry s A).2 ops) U).1.2 = none ∧
          (UpdateEntry (runOps lib (AddEntry s A).2 ops) U).2.docs =
            replaceFirst A'.ID { U with Email := ToLower U.Email }
              (runOps lib (AddEntry s A).2 ops).docs)) := by
  have hinv := runOps_EmailInv (ToLower A.Email) lib ops _
    (EmailInv_after_AddEntry hid hclean hA hadd) hops
  obtain ⟨_, id, hlen, hidA, hdocs, _⟩ := AddEntry_ok hadd
  refine ⟨{ A with ID := id, Email := ToLower A.Email }, hdocs, rfl,
    ne_empty_of_length hlen, hidA, ?_⟩
  intro hstill
  exact same_email_calls B U hinv hlen hstill

/-! ### The handlers -/

/-- C8 (amended): for a well-formed id, against the `MongoService` over a collection with
unique ids, the first `DELETE /entry/:id` answers 200 with an empty body and removes the
document when a document has that id, and answers 500 with the body of
`mgo.ErrNotFound` when none has; the second `DELETE` in a row answers 500 with the body
of `mgo.ErrNotFound`, because no document has the id any more and `DeleteEntryByID`
returns the error of `Remove` as it is. -/
theorem HandleDeleteEntryByID_twice (lib : Lib) (s : MongoService) (r : Request) (ps : Params)
    (header : List (String × String))
    (hwf : IsObjectIdHex (ps.ByName "id") = true)
    (huniq : s.docs.Pairwise (fun a b => a.ID ≠ b.ID)) :
    ((∃ d ∈ s.docs, d.ID = ObjectIdHex (ps.ByName "id")) →
      (HandleDeleteEntryByID (mongoService lib) r ps (World.start header s)).w.status =
        some 200 ∧
      (HandleDeleteEntryByID (mongoService lib) r ps (World.start header s)).w.body = [] ∧
      (HandleDeleteEntryByID (mongoService lib) r ps (World.start header s)).svc.docs =
        removeFirst (ObjectIdHex (ps.ByName "id")) s.docs) ∧
    ((∀ d ∈ s.docs, d.ID ≠ ObjectIdHex (ps.ByName "id")) →
      (HandleDeleteEntryByID (mongoService lib) r ps (World.start header s)).w.status =
        some 500 ∧
      (HandleDeleteEntryByID (mongoService lib) r ps (World.start header s)).w.body =
        [.errorResponse "not found"] ∧
      (HandleDeleteEntryByID (mongoService lib) r ps (World.start header s)).svc = s) ∧
    (HandleDeleteEntryByID (mongoService lib) r ps (World.start header
      (HandleDeleteEntryByID (mongoService lib) r ps (World.start header s)).svc)).w.status =
        some 500 ∧
    (HandleDeleteEntryByID (mongoService lib) r ps (World.start header
      (HandleDeleteEntryByID (mongoService lib) r ps (World.start header s)).svc)).w.body =
        [.errorResponse "not found"] := by
  have hne : ps.ByName "id" ≠ "" := IsObjectIdHex_ne_empty hwf
  have hgone : ∀ s0 : MongoService, (∀ d ∈ s0.docs, d.ID ≠ ObjectIdHex (ps.ByName "id")) →
      (HandleDeleteEntryByID (mongoService lib) r ps (World.start header s0)).w.status =
        some 500 ∧
      (HandleDeleteEntryByID (mongoService lib) r ps (World.start header s0)).w.body =
        [.errorResponse "not found"] ∧
      (HandleDeleteEntryByID (mongoService lib) r ps (World.start header s0)).svc = s0 := by
    intro s0 hno
    have hd := (DeleteEntryByID_wellformed s0 _ hwf).2 hno
    simp [HandleDeleteEntryByID, hne, mongoService, World.start, hd, Error,
      ResponseWriter.fresh, ResponseWriter.WriteHeader, ResponseWriter.Write,
      StatusInternalServerError, GoError.Error]
  have hthere : (∃ d ∈ s.docs, d.ID = ObjectIdHex (ps.ByName "id")) →
      (HandleDeleteEntryByID (mongoService lib) r ps (World.start header s)).w.status =
        some 200 ∧
      (HandleDeleteEntryByID (mongoService lib) r ps (World.start header s)).w.body = [] ∧
      (HandleDeleteEntryByID (mongoService lib) r ps (World.start header s)).svc.docs =
        removeFirst (ObjectIdHex (ps.ByName "id")) s.docs := by
    intro hex
    have hd := (DeleteEntryByID_wellformed s _ hwf).1 hex
    simp [HandleDeleteEntryByID, hne, mongoService, World.start, hd,
      ResponseWriter.fresh, ResponseWriter.WriteHeader, StatusOK]
  have hafter : ∀ d ∈ (HandleDeleteEntryByID (mongoService lib) r ps
      (World.start header s)).svc.docs, d.ID ≠ ObjectIdHex (ps.ByName "id") := by
    by_cases hex : ∃ d ∈ s.docs, d.ID = ObjectIdHex (ps.ByName "id")
    · rw [(hthere hex).2.2]
      exact removeFirst_no_id _ _ huniq
    · have hno : ∀ d ∈ s.docs, d.ID ≠ ObjectIdHex (ps.ByName "id") :=
        fun d hd hid => hex ⟨d, hd, hid⟩
      rw [(hgone s hno).2.2]
      exact hno
  exact ⟨hthere, hgone s, (hgone _ hafter).1, (hgone _ hafter).2.1⟩

end Parametric

/-! ## Witnesses and counterexamples -/

/-! ### Adding the same email twice -/

/-- Witness of `AddEntry_then_same_email`: `exA` added to `exStore`, then the calls
`exOps`, then `exB` and `exU`; and `exAccA`, whose email starts with `À`, added to
`exStore`, then `exAccB`, whose email starts with `à`. -/
theorem AddEntry_then_same_email_witness :
    exA.Validate = none ∧ (AddEntry exStore exA).1.err = none ∧
    (∀ op ∈ exOps, op.EntriesValid (exLib fun _ => [exRowDup])) ∧
    (AddEntry (runOps (exLib fun _ => [exRowDup]) (AddEntry exStore exA).2 exOps) exB).1.err =
      some .ErrEmailExists ∧
    (AddEntry (runOps (exLib fun _ => [exRowDup]) (AddEntry exStore exA).2 exOps) exB).2 =
      runOps (exLib fun _ => [exRowDup]) (AddEntry exStore exA).2 exOps ∧
    (UpdateEntry (runOps (exLib fun _ => [exRowDup]) (AddEntry exStore exA).2 exOps)
      exU).1.2 = none ∧
    (AddEntry (AddEntry exStore exAccA).2 exAccB).1.err = some .ErrEmailExists := by
  have hA : exA.Validate = none := by decide
  have hadd : (AddEntry exStore exA).1.err = none := by decide
  have hops : ∀ op ∈ exOps, op.EntriesValid (exLib fun _ => [exRowDup]) := by
    intro op hop
    simp only [exOps, List.mem_cons, List.mem_singleton, List.not_mem_nil, or_false] at hop
    rcases hop with h | h | h | h <;> subst h
    · show exRowNew.Validate = none
      decide
    · show exRowUpd.Validate = none
      decide
    · intro entryFile rows ho hp
      simp only [exLib, Except.ok.injEq] at hp
      subst hp
      decide
    · trivial
  obtain ⟨A', _, hA', _, hid, hlater⟩ :=
    AddEntry_then_same_email (exLib fun _ => [exRowDup]) exStore exA exB exU exOps
      (by decide) (by decide) hA hadd hops
  have hmail : A'.Email = ToLower exA.Email := by rw [hA']
  have hidA : A'.ID = exA.ID := hid (by decide)
  obtain ⟨hB, hU⟩ := hlater ⟨lowerEmail exA, by decide, by rw [hidA]; rfl, by rw [hmail]; rfl⟩
  have h1 := hB (by rw [hmail]; decide) (Or.inl rfl)
  have h2 := hU (by rw [hidA]; rfl) (by rw [hmail]; decide)
  obtain ⟨C', hdocs, hC', _, _, hnow⟩ :=
    AddEntry_then_same_email exLib0 exStore exAccA exAccB exAccB [] (by decide) (by decide)
      (by decide) (by decide) (fun _ h => absurd h (List.not_mem_nil _))
  have hmailC : C'.Email = ToLower exAccA.Email := by rw [hC']
  have hstill : ∃ d ∈ (runOps exLib0 (AddEntry exStore exAccA).2 []).docs,
      d.ID = C'.ID ∧ d.Email = C'.Email := by
    show ∃ d ∈ (AddEntry exStore exAccA).2.docs, d.ID = C'.ID ∧ d.Email = C'.Email
    rw [hdocs]
    exact ⟨C', by simp, rfl, rfl⟩
  have h3 := (hnow hstill).1 (by rw [hmailC]; decide) (Or.inl rfl)
  exact ⟨hA, hadd, hops, h1.1, h1.2, h2.2.1, h3.1⟩

/-- C2 as stated fails.  First, in the collection left by `AddEntry` of `exD`, a record
that fails `Validate`, the valid `exA` is added successfully and stored last with the
email `ann@x.io`; `AddEntry` of `exB`, which has that email lower-cased and no id, then
returns no error and writes a third record.  Second, after `exA` has been added to the
valid collection `exStore`, one CSV import of the rows `exBadA`, `exBadC` (which fail
`Validate`) and `exA` returns no error and leaves the record of `exA` stored behind a
record that fails `Validate` and holds its email; `AddEntry` of `exB` then returns no
error and writes a third record. -/
theorem AddEntry_same_email_counterexample :
    (exA.Validate = none ∧ (AddEntry exDirty exA).1.err = none ∧
      (AddEntry exDirty exA).2.docs = exDirty.docs ++ [lowerEmail exA] ∧
      ToLower exB.Email = (lowerEmail exA).Email ∧ exB.ID = "" ∧
      (AddEntry (AddEntry exDirty exA).2 exB).1.err = none ∧
      (AddEntry (AddEntry exDirty exA).2 exB).2.docs.length = 3) ∧
    ((∀ d ∈ exStore.docs, d.Validate = none) ∧ (AddEntry exStore exA).1.err = none ∧
      (AddEntry exStore exA).2.docs = exStore.docs ++ [lowerEmail exA] ∧
      (CSVToEntries (exLib fun _ => [exBadA, exBadC, exA]) (AddEntry exStore exA).2
        exFile).1 = ([], none) ∧
      lowerEmail exA ∈ (CSVToEntries (exLib fun _ => [exBadA, exBadC, exA])
        (AddEntry exStore exA).2 exFile).2.docs ∧
      (AddEntry (CSVToEntries (exLib fun _ => [exBadA, exBadC, exA])
        (AddEntry exStore exA).2 exFile).2 exB).1.err = none ∧
      (AddEntry (CSVToEntries (exLib fun _ => [exBadA, exBadC, exA])
        (AddEntry exStore exA).2 exFile).2 exB).2.docs.length = 3) := by
  decide

/-! ### The CSV import loop -/

/-- Witness of `CSVToEntries_collisions`: three rows on `exStore`, of which the second
collides. -/
theorem CSVToEntries_collisions_witness :
    (∀ o ∈ rowTrace exStore [exRowNew, exRowDup, exRowUpd],
      o.2 = none ∨ o.2 = some .ErrEmailExists) ∧
    collidedRows exStore [exRowNew, exRowDup, exRowUpd] = [exRowDup] ∧
    appliedRows exStore [exRowNew, exRowDup, exRowUpd] = [exRowNew, exRowUpd] ∧
    (CSVToEntries (exLib fun _ => [exRowNew, exRowDup, exRowUpd]) exStore exFile).1.1 =
      (collidedRows exStore [exRowNew, exRowDup, exRowUpd]).map lowerEmail ∧
    (CSVToEntries (exLib fun _ => [exRowNew, exRowDup, exRowUpd]) exStore exFile).1.2 =
      (if 0 < (collidedRows exStore [exRowNew, exRowDup, exRowUpd]).length
        then some .ErrEmailExists else none) ∧
    (CSVToEntries (exLib fun _ => [exRowNew, exRowDup, exRowUpd]) exStore exFile).2 =
      applyRows exStore (appliedRows exStore [exRowNew, exRowDup, exRowUpd]) ∧
    (appliedRows exStore [exRowNew, exRowDup, exRowUpd]).length =
      [exRowNew, exRowDup, exRowUpd].length -
        (collidedRows exStore [exRowNew, exRowDup, exRowUpd]).length := by
  have h := CSVToEntries_collisions (exLib fun _ => [exRowNew, exRowDup, exRowUpd]) exStore
    exFile exFile [exRowNew, exRowDup, exRowUpd] rfl rfl (by decide)
  exact ⟨by decide, by decide, by decide, h.1, h.2.1, h.2.2.1, h.2.2.2.1⟩

/-- Witness of `CSVToEntries_abort`: on `exStore`, a colliding row and an added row, then
a row whose update returns `mgo.ErrNotFound`, then one more row. -/
theorem CSVToEntries_abort_witness :
    (∀ o ∈ rowTrace exStore [exRowDup, exRowNew], o.2 = none ∨ o.2 = some .ErrEmailExists) ∧
    (applyRow (applyRows exStore [exRowDup, exRowNew]) exRowGone).1.2 = some .ErrNotFound ∧
    (CSVToEntries (exLib fun _ => [exRowDup, exRowNew] ++ exRowGone :: [exRowUpd])
      exStore exFile).1 = ((collidedRows exStore [exRowDup, exRowNew]).map lowerEmail,
        some .ErrNotFound) ∧
    (CSVToEntries (exLib fun _ => [exRowDup, exRowNew] ++ exRowGone :: [exRowUpd])
      exStore exFile).2 = (applyRow (applyRows exStore [exRowDup, exRowNew]) exRowGone).2 ∧
    (CSVToEntries (exLib fun _ => [exRowDup, exRowNew] ++ exRowGone :: [exRowUpd])
      exStore exFile).2.docs =
        (applyRows exStore (appliedRows exStore [exRowDup, exRowNew])).docs :=
  ⟨by decide, by decide,
    CSVToEntries_abort (exLib fun _ => [exRowDup, exRowNew] ++ exRowGone :: [exRowUpd])
      exStore exFile exFile [exRowDup, exRowNew] exRowGone [exRowUpd] .ErrNotFound rfl rfl
      (by decide) (by decide) (by decide)⟩

/-! ### Email uniqueness -/

/-- Witness of `email_unique_invariant`: five operations on `exStore`. -/
theorem email_unique_invariant_witness :
    NoSharedEmail exStore ∧
    EmailUnique (runOps (exLib fun _ => [exRowNew, exRowDup, exRowUpd]) exStore
      [Op.AddEntry exA, Op.UpdateEntry exU, Op.CSVToEntries exFile,
        Op.DeleteEntryByID "636363636363636363636363", Op.AddEntry exB]) := by
  have hinit : NoSharedEmail exStore := by
    unfold NoSharedEmail
    decide
  refine ⟨hinit, email_unique_invariant _ exStore _ (by decide) (by decide) hinit ?_⟩
  intro op hop
  simp only [List.mem_cons, List.mem_singleton, List.not_mem_nil, or_false] at hop
  rcases hop with h | h | h | h | h <;> subst h
  · show exA.Validate = none
    decide
  · show exU.Validate = none
    decide
  · intro entryFile rows ho hp
    simp only [exLib, Except.ok.injEq] at hp
    subst hp
    decide
  · trivial
  · show exB.Validate = none
    decide

/-- C5 as stated fails: from the empty collection, one `CSVToEntries` call on the rows
`exD` (which fails `Validate`) and `exB`, both with the lower-cased email `ann@x.io`,
returns no error and leaves two records with different ids and the same email. -/
theorem email_unique_counterexample :
    NoSharedEmail exEmpty ∧
    (CSVToEntries (exLib fun _ => [exD, exB]) exEmpty exFile).1 = ([], none) ∧
    ¬ EmailUnique (runOps (exLib fun _ => [exD, exB]) exEmpty [Op.CSVToEntries exFile]) := by
  refine ⟨?_, by decide, ?_⟩
  · unfold NoSharedEmail
    decide
  · unfold EmailUnique
    decide

/-! ### What reaches a store write -/

/-- C6 fails on the CSV path: the row `exRowBad` fails `Validate` (its first name is
empty), yet `CSVToEntries` returns no error for it and the collection then holds it,
while `HandlePostEntry` answers 400 for the same entry without calling `AddEntry`. -/
theorem CSVToEntries_writes_invalid_entry :
    exRowBad.Validate = some .ErrInvalidName ∧
    (CSVToEntries (exLib fun _ => [exRowBad]) exStore exFile).1 = ([], none) ∧
    (CSVToEntries (exLib fun _ => [exRowBad]) exStore exFile).2.docs =
      [exC, { exRowBad with ID := NewObjectId 7 }] ∧
    (HandlePostEntry (mongoService (exLib fun _ => [])) { exRequest with Body := .ok exRowBad }
      [] (World.start [] exStore)).w.status = some 400 ∧
    (HandlePostEntry (mongoService (exLib fun _ => [])) { exRequest with Body := .ok exRowBad }
      [] (World.start [] exStore)).calls = [] := by
  decide

/-! ### The handlers -/

/-- Witness of `HandleGetEntryByID_responses`, on the `MongoService` over `exStore`: a
malformed id, a well-formed id that no document has, and the id of `exC`. -/
theorem HandleGetEntryByID_responses_witness :
    Params.ByName [("id", "not-an-id")] "id" ≠ "" ∧
    ((HandleGetEntryByID (mongoService exLib0) exRequest [("id", "not-an-id")]
        (World.start [] exStore)).w.status = some 400 ∧
      (HandleGetEntryByID (mongoService exLib0) exRequest [("id", "not-an-id")]
        (World.start [] exStore)).w.body = [.errorResponse "ID value is invalid"]) ∧
    ((HandleGetEntryByID (mongoService exLib0) exRequest [("id", exHexA)]
        (World.start [] exStore)).w.status = some 200 ∧
      (HandleGetEntryByID (mongoService exLib0) exRequest [("id", exHexA)]
        (World.start [] exStore)).w.body = [.errorResponse GoError.ErrNotFound.Error]) ∧
    ((HandleGetEntryByID (mongoService exLib0) exRequest [("id", exHexC)]
        (World.start [] exStore)).w.status = some 200 ∧
      (HandleGetEntryByID (mongoService exLib0) exRequest [("id", exHexC)]
        (World.start [] exStore)).w.body =
          [.entry ((mongoService exLib0).EntryByID (Params.ByName [("id", exHexC)] "id")
            exStore).1.1]) :=
  ⟨by decide,
    (HandleGetEntryByID_responses (mongoService exLib0) exRequest [("id", "not-an-id")] []
      exStore (by decide)).1 (by decide),
    (HandleGetEntryByID_responses (mongoService exLib0) exRequest [("id", exHexA)] []
      exStore (by decide)).2.1 .ErrNotFound (by decide) (by decide),
    (HandleGetEntryByID_responses (mongoService exLib0) exRequest [("id", exHexC)] []
      exStore (by decide)).2.2.1 (by decide)⟩

/-- Witness of `HandleDeleteEntryByID_twice`: the id of `exC`, deleted twice from
`exStore`. -/
theorem HandleDeleteEntryByID_twice_witness :
    IsObjectIdHex (Params.ByName [("id", exHexC)] "id") = true ∧
    exStore.docs.Pairwise (fun a b => a.ID ≠ b.ID) ∧
    (HandleDeleteEntryByID (mongoService exLib0) exRequest [("id", exHexC)]
      (World.start [] exStore)).w.status = some 200 ∧
    (HandleDeleteEntryByID (mongoService exLib0) exRequest [("id", exHexC)] (World.start []
      (HandleDeleteEntryByID (mongoService exLib0) exRequest [("id", exHexC)]
        (World.start [] exStore)).svc)).w.status = some 500 :=
  ⟨by decide, by decide,
    ((HandleDeleteEntryByID_twice exLib0 exStore exRequest [("id", exHexC)] [] (by decide)
      (by decide)).1 ⟨exC, by decide, by decide⟩).1,
    (HandleDeleteEntryByID_twice exLib0 exStore exRequest [("id", exHexC)] [] (by decide)
      (by decide)).2.2.1⟩

/-- C8 as stated fails: `exHexC` is a well-formed id and `exC` has it; the first
`DELETE` answers 200 with an empty body, the second answers 500 with the body of
`mgo.ErrNotFound`, which `DeleteEntryByID` returned. -/
theorem HandleDeleteEntryByID_twice_counterexample :
    IsObjectIdHex exHexC = true ∧
    (HandleDeleteEntryByID (mongoService exLib0) exRequest [("id", exHexC)]
      (World.start [] exStore)).w.status = some 200 ∧
    (HandleDeleteEntryByID (mongoService exLib0) exRequest [("id", exHexC)]
      (World.start [] exStore)).w.body = [] ∧
    (DeleteEntryByID (HandleDeleteEntryByID (mongoService exLib0) exRequest [("id", exHexC)]
      (World.start [] exStore)).svc exHexC).1 = some .ErrNotFound ∧
    (HandleDeleteEntryByID (mongoService exLib0) exRequest [("id", exHexC)] (World.start []
      (HandleDeleteEntryByID (mongoService exLib0) exRequest [("id", exHexC)]
        (World.start [] exStore)).svc)).w.status = some 500 ∧
    (HandleDeleteEntryByID (mongoService exLib0) exRequest [("id", exHexC)] (World.start []
      (HandleDeleteEntryByID (mongoService exLib0) exRequest [("id", exHexC)]
        (World.start [] exStore)).svc)).w.body = [.errorResponse "not found"] := by
  decide

/-- Witness of `HandlePostCSV_content_type`: an upload declared `application/json` and
one declared `text/csv`, against the `MongoService` over `exStore`. -/
theorem HandlePostCSV_content_type_witness :
    ((HandlePostCSV (mongoService exLib0) exLib0 { exRequest with FormFile := .ok exPartJSON } []
        (World.start [] exStore)).w.status = some 400 ∧
      (HandlePostCSV (mongoService exLib0) exLib0 { exRequest with FormFile := .ok exPartJSON } []
        (World.start [] exStore)).calls = []) ∧
    ((HandlePostCSV (mongoService exLib0) exLib0 { exRequest with FormFile := .ok exPartCSV } []
        (World.start [] exStore)).w.status = some 202 ∧
      (HandlePostCSV (mongoService exLib0) exLib0 { exRequest with FormFile := .ok exPartCSV } []
        (World.start [] exStore)).w.body = []) := by
  have h1 := (HandlePostCSV_content_type (mongoService exLib0) exLib0
    { exRequest with FormFile := .ok exPartJSON } [] [] exStore exPartJSON rfl).1 (by decide)
  have h2 := (HandlePostCSV_content_type (mongoService exLib0) exLib0
    { exRequest with FormFile := .ok exPartCSV } [] [] exStore exPartCSV rfl).2 rfl
      { name := "tmp.1.csv", contents := "" } rfl (by decide)
  exact ⟨⟨h1.1, h1.2.2.1⟩, ⟨h2.1, h2.2.1⟩⟩

/-- C10 fails on the error branch: for the valid entry `exRowGone`, whose id no document
of `exStore` has, `UpdateEntry` returns `mgo.ErrNotFound`; `HandlePutEntry` writes status
500 and the error body and then, having no `return`, calls `WriteHeader(202)` as well.
`HandleDeleteEntryByID`, which returns after `Error`, makes the one call. -/
theorem HandlePutEntry_error_writes_second_status :
    exRowGone.Validate = none ∧ exRowGone.ID ≠ "" ∧
    (UpdateEntry exStore exRowGone).1.2 = some .ErrNotFound ∧
    (HandlePutEntry (mongoService exLib0) { exRequest with Body := .ok exRowGone } []
      (World.start [] exStore)).w.status = some 500 ∧
    (HandlePutEntry (mongoService exLib0) { exRequest with Body := .ok exRowGone } []
      (World.start [] exStore)).w.body = [.errorResponse "not found"] ∧
    (HandlePutEntry (mongoService exLib0) { exRequest with Body := .ok exRowGone } []
      (World.start [] exStore)).w.writeHeaderCalls = [500, 202] ∧
    (HandleDeleteEntryByID (mongoService exLib0) exRequest [("id", exHexA)]
      (World.start [] exStore)).w.writeHeaderCalls = [500] := by
  decide

end Contacts
